import Mathlib

/-!
Shallow embedding of the prehrajto-scraper core (crates/prehrajto-core) and
proofs about its specification claims.

Strings are modelled as `List Char` (`Str`).  Rust byte positions and byte
lengths coincide with character positions on the ASCII inputs these parsers
are aimed at; `str::trim`, `char::to_lowercase` and the regex `\s` class are
modelled by `Char.isWhitespace` / `Char.toLower`, which agree on ASCII.

The HTML tree produced by `scraper::Html::parse_document` is modelled by the
`Dom` type (a forest of element/text nodes in document order); functions that
in Rust parse the HTML text into a tree here take the tree as an argument.

Regex-based extraction (`regex::Regex::captures_iter` / `captures` / `find`)
is embedded by hand-written scanners that realise the concrete patterns of
`parser/direct_url.rs`: a match attempt is made at every position from left
to right (leftmost semantics), inner gap quantifiers `[^}]*` are resolved to
the leftmost viable occurrence of the following literal, and the `[^}]`
classes mean an object body is read up to the first closing brace.
-/

namespace Prehrajto

/-- Strings as lists of characters. -/
abbrev Str := List Char

/-- Converts a Lean string literal to the `Str` model. -/
def cs (s : String) : Str := s.data

/-- Removes leading whitespace (`str::trim_start`). -/
def trimStart (s : Str) : Str := s.dropWhile (fun c => c.isWhitespace)

/-- Removes trailing whitespace (`str::trim_end`). -/
def trimEnd (s : Str) : Str := (s.reverse.dropWhile (fun c => c.isWhitespace)).reverse

/-- Removes surrounding whitespace (`str::trim`). -/
def trim (s : Str) : Str := trimEnd (trimStart s)

/-- Character-wise lower-casing (`str::to_lowercase`, ASCII fragment). -/
def toLowerStr (s : Str) : Str := s.map Char.toLower

/-- Character-wise upper-casing (`str::to_uppercase`, ASCII fragment). -/
def toUpperStr (s : Str) : Str := s.map Char.toUpper

/-- `haystack.contains(pat)` for string patterns. -/
def containsSub (pat : Str) : Str → Bool
  | [] => pat.isEmpty
  | c :: rest => pat.isPrefixOf (c :: rest) || containsSub pat rest

/-- Index of the first occurrence of `pat` (`str::find`). -/
def findSubIdx (pat : Str) : Str → Option Nat
  | [] => if pat.isEmpty then some 0 else none
  | c :: rest =>
    if pat.isPrefixOf (c :: rest) then some 0
    else (findSubIdx pat rest).map (fun i => i + 1)

/-- `str::strip_prefix`: drops `pre` when it is a prefix. -/
def stripPre (pre s : Str) : Option Str :=
  if pre.isPrefixOf s then some (s.drop pre.length) else none

/-- `str::split` on a single character separator. -/
def splitOnChar (sep : Char) : Str → List Str
  | [] => [[]]
  | c :: rest =>
    let r := splitOnChar sep rest
    if c = sep then [] :: r
    else
      match r with
      | [] => [[c]]
      | h :: t => (c :: h) :: t

/-- Fuel-driven worker for `splitOnSub`. -/
def splitOnSubF (sep : Str) : Nat → Str → List Str
  | 0, s => [s]
  | _ + 1, [] => [[]]
  | fuel + 1, c :: rest =>
    if sep.isPrefixOf (c :: rest) && !sep.isEmpty then
      [] :: splitOnSubF sep fuel ((c :: rest).drop sep.length)
    else
      match splitOnSubF sep fuel rest with
      | [] => [[c]]
      | h :: t => (c :: h) :: t

/-- `str::split` on a string separator. -/
def splitOnSub (sep s : Str) : List Str := splitOnSubF sep s.length s

/-- Fuel-driven worker for `replaceAll`. -/
def replaceAllF (pat rep : Str) : Nat → Str → Str
  | 0, s => s
  | _ + 1, [] => []
  | fuel + 1, c :: rest =>
    if pat.isPrefixOf (c :: rest) then
      rep ++ replaceAllF pat rep fuel ((c :: rest).drop pat.length)
    else
      c :: replaceAllF pat rep fuel rest

/-- `str::replace`: replaces every non-overlapping occurrence of `pat`,
scanning left to right. -/
def replaceAll (pat rep s : Str) : Str := replaceAllF pat rep s.length s

/-- Decimal value of a digit run. -/
def digitsVal (s : Str) : Nat := s.foldl (fun a c => a * 10 + (c.toNat - 48)) 0

/-- `str::parse::<u32>()`: optional leading plus sign, one or more ASCII
digits, value below 2^32. -/
def parseU32 (s : Str) : Option Nat :=
  let t := match s with
           | '+' :: r => r
           | r => r
  if !t.isEmpty && t.all (fun c => c.isDigit) && digitsVal t < 2 ^ 32 then
    some (digitsVal t)
  else none

/-- Decimal rendering of a natural number. -/
def natStr (n : Nat) : Str := (Nat.repr n).data

/-- Value of a hexadecimal digit, if any. -/
def hexVal (c : Char) : Option Nat :=
  if c.isDigit then some (c.toNat - 48)
  else if 'a' ≤ c && c ≤ 'f' then some (c.toNat - 87)
  else if 'A' ≤ c && c ≤ 'F' then some (c.toNat - 55)
  else none

/-- `urlencoding::decode` (ASCII fragment): `%XX` hex pairs are decoded,
malformed escapes are kept verbatim. -/
def percentDecode : Str → Str
  | [] => []
  | '%' :: h1 :: h2 :: rest =>
    match hexVal h1, hexVal h2 with
    | some a, some b => Char.ofNat (a * 16 + b) :: percentDecode rest
    | _, _ => '%' :: percentDecode (h1 :: h2 :: rest)
  | c :: rest => c :: percentDecode rest

/-- Unreserved characters kept verbatim by `urlencoding::encode`. -/
def isUnreserved (c : Char) : Bool :=
  c.isAlphanum || c = '-' || c = '_' || c = '.' || c = '~'

/-- Upper-case hexadecimal digit. -/
def hexDigit (n : Nat) : Char :=
  if n < 10 then Char.ofNat (48 + n) else Char.ofNat (55 + n)

/-- UTF-8 bytes of a character. -/
def utf8Bytes (c : Char) : List Nat :=
  let n := c.toNat
  if n < 128 then [n]
  else if n < 2048 then [192 + n / 64, 128 + n % 64]
  else if n < 65536 then [224 + n / 4096, 128 + n / 64 % 64, 128 + n % 64]
  else [240 + n / 262144, 128 + n / 4096 % 64, 128 + n / 64 % 64, 128 + n % 64]

/-- `urlencoding::encode`: percent-encodes every byte of every character
outside the unreserved set. -/
def urlEncode (s : Str) : Str :=
  s.flatMap (fun c =>
    if isUnreserved c then [c]
    else (utf8Bytes c).flatMap (fun b => ['%', hexDigit (b / 16), hexDigit (b % 16)]))

/-- Splits off the run up to (and excluding) the first `stop` character,
returning the run and the remainder after the delimiter. -/
def takeUntilChar (stop : Char) : Str → Option (Str × Str)
  | [] => none
  | c :: rest =>
    if c = stop then some ([], rest)
    else (takeUntilChar stop rest).map (fun p => (c :: p.1, p.2))

/-- Like `takeUntilChar` but stops at either a double quote or a single
quote (the regex class `["']`). -/
def takeUntilQuote : Str → Option (Str × Str)
  | [] => none
  | c :: rest =>
    if c = '"' || c = '\x27' then some ([], rest)
    else (takeUntilQuote rest).map (fun p => (c :: p.1, p.2))

/-- Error type of the scraper (`error.rs`, `PrehrajtoError`).  The
`reqwest::Error` payload of `HttpError` is reduced to the three predicates
`is_retryable` consults: `is_timeout()`, `is_connect()` and `status()`. -/
inductive PErr where
  | httpError (isTimeout isConnect : Bool) (status : Option Nat)
  | parseError (msg : Str)
  | elementNotFound (msg : Str)
  | invalidUrl (msg : Str)
  | rateLimited
  | notFound (msg : Str)
  | invalidId (msg : Str)
deriving DecidableEq, Repr

/-- `types.rs` `VideoSource`. -/
structure VideoSource where
  url : Str
  label : Str
  resolution : Nat
  is_default : Bool
  format : Option Str
deriving DecidableEq, Repr

/-- `types.rs` `SubtitleTrack`. -/
structure SubtitleTrack where
  url : Str
  language : Str
  label : Str
  is_default : Bool
deriving DecidableEq, Repr

/-- `types.rs` `VideoResult`. -/
structure VideoResult where
  name : Str
  url : Str
  video_id : Str
  video_slug : Str
  download_url : Str
  duration : Option Str
  quality : Option Str
  file_size : Option Str
deriving DecidableEq, Repr

/-- `types.rs` `VideoPageData`. -/
structure VideoPageData where
  sources : List VideoSource
  subtitles : List SubtitleTrack
deriving DecidableEq, Repr

/-- `direct_url.rs` `is_cdn_url`. -/
def is_cdn_url (url : Str) : Bool :=
  containsSub (cs "premiumcdn.net") url ||
    (containsSub (cs "cdn.") url && containsSub (cs "premium") url)

/-- `direct_url.rs` `decode_html_entities`: the five `str::replace` passes,
applied in source order. -/
def decode_html_entities (url : Str) : Str :=
  replaceAll (cs "&#39;") (cs "\x27")
    (replaceAll (cs "&quot;") (cs "\"")
      (replaceAll (cs "&gt;") (cs ">")
        (replaceAll (cs "&lt;") (cs "<")
          (replaceAll (cs "&amp;") (cs "&") url))))

/-- `direct_url.rs` `parse_resolution_from_label`: trim, lower-case, strip
all trailing `p` characters, parse the rest as `u32` (0 on failure). -/
def parse_resolution_from_label (label : Str) : Nat :=
  let trimmed := toLowerStr (trim label)
  let numeric := (trimmed.reverse.dropWhile (fun c => c = 'p')).reverse
  (parseU32 numeric).getD 0

/-- Match attempt of the regex `(\d{3,4})p` at the head of `s`: four digits
and `p` (the greedy choice) first, then three digits and `p`. -/
def resAt (s : Str) : Option Nat :=
  match s with
  | a :: b :: c :: d :: e :: _ =>
    if a.isDigit && b.isDigit && c.isDigit && d.isDigit && e = 'p' then
      some (digitsVal [a, b, c, d])
    else if a.isDigit && b.isDigit && c.isDigit && d = 'p' then
      some (digitsVal [a, b, c])
    else none
  | [a, b, c, d] =>
    if a.isDigit && b.isDigit && c.isDigit && d = 'p' then
      some (digitsVal [a, b, c])
    else none
  | _ => none

/-- Leftmost match of `(\d{3,4})p` in `s`. -/
def findResNum : Str → Option Nat
  | [] => none
  | c :: rest =>
    match resAt (c :: rest) with
    | some r => some r
    | none => findResNum rest

/-- `direct_url.rs` `parse_resolution_from_text`: leftmost `(\d{3,4})p`
match, else 2160 for a `4K`/`4k` literal, else 0. -/
def parse_resolution_from_text (text : Str) : Nat :=
  match findResNum text with
  | some r => r
  | none =>
    if containsSub (cs "4K") text || containsSub (cs "4k") text then 2160 else 0

/-- `direct_url.rs` `extract_filename_from_url`: the first `filename=`
parameter of the query string, URL-decoded. -/
def extract_filename_from_url (url : Str) : Option Str :=
  ((splitOnChar '?' url).get? 1).bind (fun query =>
    (((splitOnChar '&' query).filterMap (fun p => stripPre (cs "filename=") p)).head?).map
      percentDecode)

/-- The container-format whitelist of `extract_format_from_url`. -/
def formatWhitelist (ext : Str) : Bool :=
  ext = cs "mp4" || ext = cs "mkv" || ext = cs "avi" || ext = cs "webm" ||
    ext = cs "mov" || ext = cs "flv" || ext = cs "wmv" || ext = cs "m4v"

/-- Last `.`-separated segment of `s` (`rsplit` plus `next`). -/
def lastDotSeg (s : Str) : Str := (splitOnChar '.' s).getLastD []

/-- `direct_url.rs` `extract_format_from_url`: extension of the
`filename=` parameter if whitelisted, else extension of the URL path if
whitelisted. -/
def extract_format_from_url (url : Str) : Option Str :=
  let fromFilename :=
    (extract_filename_from_url url).bind (fun filename =>
      let ext := toLowerStr (lastDotSeg filename)
      if formatWhitelist ext then some ext else none)
  match fromFilename with
  | some ext => some ext
  | none =>
    let path := (splitOnChar '?' url).headD url
    let ext := toLowerStr (lastDotSeg path)
    if formatWhitelist ext then some ext else none

/-- Parses `\s*'(…)'` (or with `"`): optional whitespace, opening quote, a
non-empty capture up to the closing quote.  Returns capture and remainder. -/
def parseQuotedCap (quote : Char) (t : Str) : Option (Str × Str) :=
  match trimStart t with
  | q :: u =>
    if q = quote then
      (takeUntilChar quote u).bind (fun p => if p.1.isEmpty then none else some p)
    else none
  | [] => none

/-- Parses `\s*'(\d+)'`: optional whitespace, quote, a non-empty digit run,
closing quote. -/
def parseQuotedDigits (quote : Char) (t : Str) : Option (Str × Str) :=
  match trimStart t with
  | q :: u =>
    if q = quote then
      match u.dropWhile (fun c => c.isDigit) with
      | q2 :: r2 =>
        if !(u.takeWhile (fun c => c.isDigit)).isEmpty && q2 = quote then
          some (u.takeWhile (fun c => c.isDigit), r2)
        else none
      | [] => none
    else none
  | [] => none

/-- Leftmost occurrence of `key` followed by a quoted capture
(`key\s*'([^']+)'`). -/
def findField (key : Str) (quote : Char) : Str → Option (Str × Str)
  | [] => none
  | c :: rest =>
    match
      (if key.isPrefixOf (c :: rest) then
        parseQuotedCap quote ((c :: rest).drop key.length)
      else none) with
    | some p => some p
    | none => findField key quote rest

/-- Leftmost occurrence of `key` followed by a quoted digit capture. -/
def findFieldDigits (key : Str) (quote : Char) : Str → Option (Str × Str)
  | [] => none
  | c :: rest =>
    match
      (if key.isPrefixOf (c :: rest) then
        parseQuotedDigits quote ((c :: rest).drop key.length)
      else none) with
    | some p => some p
    | none => findFieldDigits key quote rest

/-- Like `findField` but the gap to the key is `[^}]*`: the search aborts at
the first closing brace. -/
def findFieldNoBrace (key : Str) (quote : Char) : Str → Option (Str × Str)
  | [] => none
  | c :: rest =>
    if c = '\x7d' then none
    else
      match
        (if key.isPrefixOf (c :: rest) then
          parseQuotedCap quote ((c :: rest).drop key.length)
        else none) with
      | some p => some p
      | none => findFieldNoBrace key quote rest

/-- Leftmost `key\s*LIT` within a brace-free gap; returns the remainder
after the literal. -/
def findLiteralNoBrace (key lit : Str) : Str → Option Str
  | [] => none
  | c :: rest =>
    if c = '\x7d' then none
    else
      match
        (if key.isPrefixOf (c :: rest) then
          stripPre lit (trimStart ((c :: rest).drop key.length))
        else none) with
      | some r => some r
      | none => findLiteralNoBrace key lit rest

/-- One `videos.push({…})` object body (the brace-free region): realises
`src:\s*"([^"]+)"[^}]*res:\s*'(\d+)'[^}]*label:\s*'([^']+)'([^}]*)` of
`extract_videojs_sources`. -/
def videojsEntry (region : Str) : Option VideoSource :=
  (findField (cs "src:") '"' region).bind (fun p1 =>
    (findFieldDigits (cs "res:") '\x27' p1.2).bind (fun p2 =>
      (findField (cs "label:") '\x27' p2.2).map (fun p3 =>
        { url := p1.1
          label := p3.1
          resolution := (parseU32 p2.1).getD 0
          is_default := containsSub (cs "default: true") p3.2 ||
            containsSub (cs "default:true") p3.2
          format := extract_format_from_url p1.1 })))

/-- Scanner of `extract_videojs_sources`: successive non-overlapping
`videos\.push\(\{…\}` matches, left to right. -/
def scanVideojsF : Nat → Str → List VideoSource
  | 0, _ => []
  | _ + 1, [] => []
  | fuel + 1, c :: rest =>
    if (cs "videos.push(\x7b").isPrefixOf (c :: rest) then
      match takeUntilChar '\x7d' ((c :: rest).drop 13) with
      | none => []
      | some p =>
        match videojsEntry p.1 with
        | some src => src :: scanVideojsF fuel p.2
        | none => scanVideojsF fuel rest
    else scanVideojsF fuel rest

/-- `direct_url.rs` `extract_videojs_sources`. -/
def extract_videojs_sources (html : Str) : List VideoSource :=
  scanVideojsF (html.length + 1) html

/-- Attempt of the JWPlayer source pattern
`\{\s*file:\s*"([^"]*premiumcdn[^"]*)"[^}]*label:\s*'([^']+)'` just after
an opening brace.  Returns the source and the remainder after the match. -/
def jwSourceAt (t : Str) : Option (VideoSource × Str) :=
  (stripPre (cs "file:") (trimStart t)).bind (fun t1 =>
    match trimStart t1 with
    | '"' :: t2 =>
      (takeUntilChar '"' t2).bind (fun p =>
        if containsSub (cs "premiumcdn") p.1 then
          (findFieldNoBrace (cs "label:") '\x27' p.2).map (fun q =>
            ({ url := p.1
               label := q.1
               resolution := parse_resolution_from_label q.1
               is_default := false
               format := extract_format_from_url p.1 }, q.2))
        else none)
    | _ => none)

/-- Scanner of `extract_jwplayer_sources`. -/
def scanJwSourcesF : Nat → Str → List VideoSource
  | 0, _ => []
  | _ + 1, [] => []
  | fuel + 1, c :: rest =>
    if c = '\x7b' then
      match jwSourceAt rest with
      | some p => p.1 :: scanJwSourcesF fuel p.2
      | none => scanJwSourcesF fuel rest
    else scanJwSourcesF fuel rest

/-- `direct_url.rs` `extract_jwplayer_sources`. -/
def extract_jwplayer_sources (html : Str) : List VideoSource :=
  scanJwSourcesF (html.length + 1) html

/-- `direct_url.rs` `clean_subtitle_label`: first `" - "`-separated segment,
trimmed. -/
def clean_subtitle_label (raw : Str) : Str :=
  trim ((splitOnSub (cs " - ") raw).headD raw)

/-- `direct_url.rs` `extract_language_from_label`: last segment trimmed when
there are at least three `" - "`-separated segments, else the first segment
trimmed and lower-cased. -/
def extract_language_from_label (raw : Str) : Str :=
  let parts := splitOnSub (cs " - ") raw
  if 3 ≤ parts.length then trim (parts.getLastD [])
  else toLowerStr (trim (parts.headD []))

/-- The subtree of the scan window from its last opening brace onward. -/
def afterLastBrace : Str → Option Str
  | [] => none
  | c :: rest =>
    match afterLastBrace rest with
    | some r => some r
    | none => if c = '\x7b' then some (c :: rest) else none

/-- `direct_url.rs` `html_before_match_has_default`: looks back up to 200
characters before the first occurrence of `url` for a `"default": true`
marker inside the same object. -/
def html_before_match_has_default (html url : Str) : Bool :=
  match findSubIdx url html with
  | none => false
  | some pos =>
    let start := pos - 200
    match afterLastBrace ((html.drop start).take (pos - start)) with
    | none => false
    | some w =>
      containsSub (cs "\"default\": true") w || containsSub (cs "\"default\":true") w

/-- Attempt of the VideoJS track pattern just after an opening brace:
`\{\s*src:\s*"([^"]+)"[^}]*srclang:\s*"([^"]+)"[^}]*label:\s*"([^"]+)"`
`[^}]*kind:\s*"captions"([^}]*)\}`. -/
def videojsTrackAt (t : Str) : Option (SubtitleTrack × Str) :=
  (stripPre (cs "src:") (trimStart t)).bind (fun t1 =>
    match trimStart t1 with
    | '"' :: t2 =>
      (takeUntilChar '"' t2).bind (fun p =>
        if p.1.isEmpty then none
        else
          (findFieldNoBrace (cs "srclang:") '"' p.2).bind (fun q =>
            (findFieldNoBrace (cs "label:") '"' q.2).bind (fun r =>
              (findLiteralNoBrace (cs "kind:") (cs "\"captions\"") r.2).bind (fun t6 =>
                (takeUntilChar '\x7d' t6).map (fun w =>
                  ({ url := p.1
                     language := q.1
                     label := clean_subtitle_label r.1
                     is_default := containsSub (cs "default: true") w.1 ||
                       containsSub (cs "default:true") w.1 }, w.2))))))
    | _ => none)

/-- Scanner of `extract_videojs_tracks`. -/
def scanVideojsTracksF : Nat → Str → List SubtitleTrack
  | 0, _ => []
  | _ + 1, [] => []
  | fuel + 1, c :: rest =>
    if c = '\x7b' then
      match videojsTrackAt rest with
      | some p => p.1 :: scanVideojsTracksF fuel p.2
      | none => scanVideojsTracksF fuel rest
    else scanVideojsTracksF fuel rest

/-- `direct_url.rs` `extract_videojs_tracks`. -/
def extract_videojs_tracks (html : Str) : List SubtitleTrack :=
  scanVideojsTracksF (html.length + 1) html

/-- Attempt of the JWPlayer track pattern just after an opening brace:
`\{\s*file:\s*"([^"]+\.vtt[^"]*)"[^}]*label:\s*"([^"]+)"[^}]*`
`kind:\s*"captions"([^}]*)\}`.  The whole page text is also consulted for
the backward `"default": true` scan. -/
def jwTrackAt (html t : Str) : Option (SubtitleTrack × Str) :=
  (stripPre (cs "file:") (trimStart t)).bind (fun t1 =>
    match trimStart t1 with
    | '"' :: t2 =>
      (takeUntilChar '"' t2).bind (fun p =>
        if containsSub (cs ".vtt") (p.1.drop 1) then
          (findFieldNoBrace (cs "label:") '"' p.2).bind (fun r =>
            (findLiteralNoBrace (cs "kind:") (cs "\"captions\"") r.2).bind (fun t6 =>
              (takeUntilChar '\x7d' t6).map (fun w =>
                ({ url := p.1
                   language := extract_language_from_label r.1
                   label := clean_subtitle_label r.1
                   is_default := containsSub (cs "\"default\": true") w.1 ||
                     containsSub (cs "\"default\":true") w.1 ||
                     html_before_match_has_default html p.1 }, w.2))))
        else none)
    | _ => none)

/-- Scanner of `extract_jwplayer_tracks`. -/
def scanJwTracksF (html : Str) : Nat → Str → List SubtitleTrack
  | 0, _ => []
  | _ + 1, [] => []
  | fuel + 1, c :: rest =>
    if c = '\x7b' then
      match jwTrackAt html rest with
      | some p => p.1 :: scanJwTracksF html fuel p.2
      | none => scanJwTracksF html fuel rest
    else scanJwTracksF html fuel rest

/-- `direct_url.rs` `extract_jwplayer_tracks`. -/
def extract_jwplayer_tracks (html : Str) : List SubtitleTrack :=
  scanJwTracksF html (html.length + 1) html

/-- `direct_url.rs` `parse_video_sources`: VideoJS blocks first, JWPlayer
fallback only when VideoJS yields nothing. -/
def parse_video_sources (html : Str) : List VideoSource :=
  let sources := extract_videojs_sources html
  if !sources.isEmpty then sources else extract_jwplayer_sources html

/-- `direct_url.rs` `parse_subtitle_tracks`. -/
def parse_subtitle_tracks (html : Str) : List SubtitleTrack :=
  let tracks := extract_videojs_tracks html
  if !tracks.isEmpty then tracks else extract_jwplayer_tracks html

/-- Attempt of one inline-script redirect pattern
`LIT\s*=\s*["']([^"']+premiumcdn[^"']+)["']` at the current position. -/
def jsMatchAt (lit s : Str) : Option Str :=
  (stripPre lit s).bind (fun t1 =>
    match trimStart t1 with
    | '=' :: t2 =>
      match trimStart t2 with
      | q :: t3 =>
        if q = '"' || q = '\x27' then
          (takeUntilQuote t3).bind (fun p =>
            if containsSub (cs "premiumcdn") ((p.1.drop 1).dropLast) then some p.1
            else none)
        else none
      | [] => none
    | _ => none)

/-- Leftmost match of one inline-script redirect pattern. -/
def jsScan (lit : Str) : Str → Option Str
  | [] => none
  | c :: rest =>
    match jsMatchAt lit (c :: rest) with
    | some u => some u
    | none => jsScan lit rest

/-- `direct_url.rs` `extract_from_javascript`: the four location-assignment
patterns tried in order; the captured URL is returned verbatim. -/
def extract_from_javascript (html : Str) : Option Str :=
  (jsScan (cs "window.location.href") html).orElse (fun _ =>
    (jsScan (cs "window.location") html).orElse (fun _ =>
      (jsScan (cs "location.href") html).orElse (fun _ =>
        jsScan (cs "location") html)))

/-- Characters admitted by the regex class `[^"'\s<>]`. -/
def genericOkChar (c : Char) : Bool :=
  !(c = '"' || c = '\x27' || c.isWhitespace || c = '<' || c = '>')

/-- Attempt of the generic CDN-URL regex at the current position:
`https?://[^"'\s<>]+premiumcdn\.net[^"'\s<>]*(?:token|expires)[^"'\s<>]*`
when `requireTok`, else `https?://[^"'\s<>]+premiumcdn\.net[^"'\s<>]+`. -/
def genericAt (requireTok : Bool) (s : Str) : Option Str :=
  (stripPre (cs "http") s).bind (fun t =>
    let sec : Option (Str × Str) :=
      match stripPre (cs "s://") t with
      | some r => some (cs "https://", r)
      | none =>
        match stripPre (cs "://") t with
        | some r => some (cs "http://", r)
        | none => none
    sec.bind (fun q =>
      let run := q.2.takeWhile genericOkChar
      if requireTok then
        match findSubIdx (cs "premiumcdn.net") (run.drop 1) with
        | none => none
        | some j =>
          if containsSub (cs "token") (run.drop (j + 15)) ||
              containsSub (cs "expires") (run.drop (j + 15)) then
            some (q.1 ++ run)
          else none
      else
        if containsSub (cs "premiumcdn.net") ((run.drop 1).dropLast) then
          some (q.1 ++ run)
        else none))

/-- Leftmost match of the generic CDN-URL regex. -/
def genericScan (requireTok : Bool) : Str → Option Str
  | [] => none
  | c :: rest =>
    match genericAt requireTok (c :: rest) with
    | some u => some u
    | none => genericScan requireTok rest

/-- `direct_url.rs` `extract_cdn_url_generic`: token/expiry-bearing URL
first, any CDN URL as fallback, both entity-decoded. -/
def extract_cdn_url_generic (html : Str) : Option Str :=
  ((genericScan true html).map decode_html_entities).orElse (fun _ =>
    (genericScan false html).map decode_html_entities)

/-- The parsed HTML document (`scraper::Html`): a forest of element and
text nodes in document order.  `consElem tag attrs children rest` is an
element followed by its right siblings `rest`. -/
inductive Dom where
  | nilD : Dom
  | consText (s : Str) (rest : Dom) : Dom
  | consElem (tag : Str) (attrs : List (Str × Str)) (children : Dom) (rest : Dom) : Dom
deriving DecidableEq, Repr

/-- One element of the tree: tag, attributes and subtree
(`scraper::ElementRef`). -/
structure Elem where
  tag : Str
  attrs : List (Str × Str)
  children : Dom
deriving DecidableEq, Repr

/-- `ElementRef::attr`: first attribute with the given name. -/
def attrOf (name : Str) (e : Elem) : Option Str :=
  (e.attrs.find? (fun a => a.1 = name)).map (fun a => a.2)

/-- All elements of a forest in document (preorder) order. -/
def domElems : Dom → List Elem
  | .nilD => []
  | .consText _ rest => domElems rest
  | .consElem tag attrs children rest =>
    ⟨tag, attrs, children⟩ :: (domElems children ++ domElems rest)

/-- All text nodes of a forest in document order (`ElementRef::text`). -/
def domTexts : Dom → List Str
  | .nilD => []
  | .consText s rest => s :: domTexts rest
  | .consElem _ _ children rest => domTexts children ++ domTexts rest

/-- The concatenation of all descendant text (`text().collect::<String>()`). -/
def joinTexts (d : Dom) : Str := (domTexts d).flatten

/-- The first descendant text node (`text().next()`). -/
def firstTextOfDom (d : Dom) : Option Str := (domTexts d).head?

/-- Hrefs of `a[href]` elements in document order. -/
def anchorHrefs (d : Dom) : List Str :=
  (domElems d).filterMap (fun e =>
    if e.tag = cs "a" then attrOf (cs "href") e else none)

/-- The href of the first anchor that satisfies the CDN predicate: the raw
value selected by both `extract_from_anchor` and
`parse_original_download_url`. -/
def firstCdnHrefD (d : Dom) : Option Str :=
  (anchorHrefs d).find? is_cdn_url

/-- `direct_url.rs` `extract_from_anchor`: first CDN anchor href,
entity-decoded. -/
def extract_from_anchor (d : Dom) : Option Str :=
  (firstCdnHrefD d).map decode_html_entities

/-- The `src` of the first CDN-matching element with the given tag. -/
def firstCdnSrc (tag : Str) (d : Dom) : Option Str :=
  ((domElems d).filterMap (fun e =>
    if e.tag = tag then attrOf (cs "src") e else none)).find? is_cdn_url

/-- `direct_url.rs` `extract_from_video_element`: `video[src]` pass first,
then `source[src]`, each entity-decoded. -/
def extract_from_video_element (d : Dom) : Option Str :=
  ((firstCdnSrc (cs "video") d).orElse (fun _ =>
    firstCdnSrc (cs "source") d)).map decode_html_entities

/-- The raw (undecoded) target of the first qualifying
`meta[http-equiv="refresh"]` element: the `content` attribute's text after
`url=`, trimmed, when it satisfies the CDN predicate. -/
def metaRefreshRaw (d : Dom) : Option Str :=
  ((domElems d).filterMap (fun e =>
    if e.tag = cs "meta" && attrOf (cs "http-equiv") e = some (cs "refresh") then
      (attrOf (cs "content") e).bind (fun content =>
        ((splitOnSub (cs "url=") content).get? 1).bind (fun part =>
          if is_cdn_url (trim part) then some (trim part) else none))
    else none)).head?

/-- `direct_url.rs` `extract_from_meta_refresh`. -/
def extract_from_meta_refresh (d : Dom) : Option Str :=
  (metaRefreshRaw d).map decode_html_entities

/-- One fold step of `Iterator::max_by_key` (`cmp::max_by`): the incumbent
is kept only when its key is strictly greater, so ties go to the newer
element. -/
def mbkStep (key : VideoSource → Nat) (acc : Option VideoSource) (x : VideoSource) :
    Option VideoSource :=
  match acc with
  | none => some x
  | some m => if key m ≤ key x then some x else some m

/-- `Iterator::max_by_key` on `resolution`: the last maximal element wins. -/
def max_by_key (key : VideoSource → Nat) (l : List VideoSource) : Option VideoSource :=
  l.foldl (mbkStep key) none

/-- `direct_url.rs` `parse_direct_url`.  The HTML text and its parsed tree
are passed separately (`Html::parse_document` is not re-modelled). -/
def parse_direct_url (html : Str) (d : Dom) : Except PErr Str :=
  match max_by_key (fun s => s.resolution) (parse_video_sources html) with
  | some best => .ok best.url
  | none =>
    match extract_from_anchor d with
    | some url => .ok url
    | none =>
      match extract_from_video_element d with
      | some url => .ok url
      | none =>
        match extract_from_javascript html with
        | some url => .ok url
        | none =>
          match extract_from_meta_refresh d with
          | some url => .ok url
          | none =>
            match extract_cdn_url_generic html with
            | some url => .ok url
            | none =>
              .error (.notFound (cs "Could not find direct CDN URL in download page"))

/-- The `VideoSource` built by `parse_original_download_url` from the
decoded href. -/
def mkOriginalSource (url : Str) : VideoSource :=
  let resolution := ((extract_filename_from_url url).map parse_resolution_from_text).getD 0
  { url := url
    label := if resolution > 0 then natStr resolution ++ cs "p" else cs "original"
    resolution := resolution
    is_default := false
    format := extract_format_from_url url }

/-- `direct_url.rs` `parse_original_download_url`. -/
def parse_original_download_url (d : Dom) : Except PErr VideoSource :=
  match firstCdnHrefD d with
  | some href => .ok (mkOriginalSource (decode_html_entities href))
  | none =>
    .error (.notFound (cs "Could not find original download URL in redirect page"))

/-- `url.rs` `build_video_url`. -/
def build_video_url (slug id : Str) : Str :=
  cs "https://prehraj.to/" ++ slug ++ cs "/" ++ id

/-- `url.rs` `build_download_url`. -/
def build_download_url (slug id : Str) : Str :=
  build_video_url slug id ++ cs "?do=download"

/-- `url.rs` `build_search_url`. -/
def build_search_url (query : Str) : Str :=
  cs "https://prehraj.to/hledej/" ++ urlEncode query

/-- `url.rs` `extract_video_info`: strips the base URL, leading slashes and
the query string, then takes the first two non-empty `/`-segments. -/
def extract_video_info (url : Str) : Option (Str × Str) :=
  let path := (stripPre (cs "https://prehraj.to") url).getD url
  let path := path.dropWhile (fun c => c = '/')
  let path := (splitOnChar '?' path).headD path
  let parts := splitOnChar '/' path
  match parts.get? 0, parts.get? 1 with
  | some slug, some id =>
    if !slug.isEmpty && !id.isEmpty then some (slug, id) else none
  | _, _ => none

/-- `search.rs` `is_duration_format`: two or three colon-separated groups,
every character an ASCII digit. -/
def is_duration_format (text : Str) : Bool :=
  let parts := splitOnChar ':' text
  decide (2 ≤ parts.length) && decide (parts.length ≤ 3) &&
    parts.all (fun p => p.all (fun c => c.isDigit))

/-- `search.rs` `is_file_size_format`: a size unit token plus at least one
digit. -/
def is_file_size_format (text : Str) : Bool :=
  let up := toUpperStr text
  (containsSub (cs "GB") up || containsSub (cs "MB") up || containsSub (cs "KB") up) &&
    text.any (fun c => c.isDigit)

/-- `search.rs` `extract_duration`: first chunk in duration format. -/
def extract_duration (divs : List Str) : Option Str :=
  divs.find? is_duration_format

/-- Whether an element's `class` attribute has the given
whitespace-separated token (CSS class selector). -/
def hasClass (e : Elem) (cls : Str) : Bool :=
  match attrOf (cs "class") e with
  | none => false
  | some v => ((splitOnChar ' ' v).filter (fun w => !w.isEmpty)).contains cls

/-- `search.rs` `extract_quality_from_element`: first `span.format__text`
descendant whose text contains `HD` (case-insensitively). -/
def extract_quality_from_element (e : Elem) : Option Str :=
  ((domElems e.children).filterMap (fun sp =>
    if sp.tag = cs "span" && hasClass sp (cs "format__text") then
      if containsSub (cs "HD") (toUpperStr (trim (joinTexts sp.children))) then
        some (trim (joinTexts sp.children))
      else none
    else none)).head?

/-- `search.rs` `extract_quality` (fallback over div texts): the literal
`HD` for the first chunk equal to `HD` or containing `HD` with length at
most 4. -/
def extract_quality (divs : List Str) : Option Str :=
  (divs.find? (fun text =>
    let up := toUpperStr text
    up = cs "HD" || (containsSub (cs "HD") up && decide (text.length ≤ 4)))).map
    (fun _ => cs "HD")

/-- `search.rs` `extract_file_size`: first chunk in file-size format. -/
def extract_file_size (divs : List Str) : Option Str :=
  divs.find? is_file_size_format

/-- The deduplicated, ordered list of first-text chunks of the anchor's
`div` descendants (the `texts` accumulation loop of `parse_video_card`). -/
def collectDivTexts : List Elem → List Str → List Str
  | [], acc => acc
  | d :: ds, acc =>
    let t := ((firstTextOfDom d.children).map trim).getD []
    if !t.isEmpty && !acc.contains t then collectDivTexts ds (acc ++ [t])
    else collectDivTexts ds acc

/-- The first `h3` descendant of an anchor element. -/
def firstH3 (e : Elem) : Option Elem :=
  ((domElems e.children).filter (fun x => x.tag = cs "h3")).head?

/-- `search.rs` `parse_video_card`. -/
def parse_video_card (e : Elem) : Option VideoResult :=
  (attrOf (cs "href") e).bind (fun href =>
    (extract_video_info href).bind (fun info =>
      (firstH3 e).bind (fun h3 =>
        let name := trim (joinTexts h3.children)
        if name.isEmpty then none
        else
          let texts := collectDivTexts
            ((domElems e.children).filter (fun x => x.tag = cs "div")) []
          some
            { name := name
              url := cs "https://prehraj.to" ++ (splitOnChar '?' href).headD href
              video_id := info.2
              video_slug := info.1
              download_url := build_download_url info.1 info.2
              duration := extract_duration texts
              quality := (extract_quality_from_element e).orElse (fun _ =>
                extract_quality texts)
              file_size := extract_file_size texts })))

/-- The `main a[href]` selection: anchors with an `href` attribute that
have a `main` ancestor, in document order. -/
def selectMainAnchors (inMain : Bool) : Dom → List Elem
  | .nilD => []
  | .consText _ rest => selectMainAnchors inMain rest
  | .consElem tag attrs children rest =>
    (if inMain && tag = cs "a" && ((⟨tag, attrs, children⟩ : Elem).attrs.find?
        (fun a => a.1 = cs "href")).isSome then
      [(⟨tag, attrs, children⟩ : Elem)]
    else []) ++
      selectMainAnchors (inMain || tag = cs "main") children ++
      selectMainAnchors inMain rest

/-- The card-collection loop of `parse_search_results` (`for … push`). -/
def collectCards : List Elem → List VideoResult
  | [] => []
  | e :: es =>
    match parse_video_card e with
    | some v => v :: collectCards es
    | none => collectCards es

/-- `search.rs` `parse_search_results` (over the parsed tree). -/
def parse_search_results (d : Dom) : Except PErr (List VideoResult) :=
  .ok (collectCards (selectMainAnchors false d))

/-- `client.rs` `is_retryable`: rate-limit errors and HTTP errors that are
timeouts, connection failures or 5xx responses. -/
def is_retryable : PErr → Bool
  | .rateLimited => true
  | .httpError isTimeout isConnect status =>
    isTimeout || isConnect ||
      (status.map (fun s => decide (500 ≤ s) && decide (s < 600))).getD false
  | _ => false

/-- The retry loop of `client.rs` `fetch_with_retry`.  `oracle k` is the
outcome of the `k`-th `do_fetch` attempt; the result is paired with the
list of backoff sleeps (in seconds) performed, in order.  The fuel equals
`max_retries + 1 - attempt`, mirroring the `attempt <= max_retries` guard;
the fuel-0 branch is the unreachable `last_error.unwrap_or(RateLimited)`
fall-through after the loop.  The backoff `1 << attempt` on the u64 second
count is modelled as the mathematical `2 ^ attempt`. -/
def fetchRetryGo (maxRetries : Nat) (oracle : Nat → Except PErr Str) :
    Nat → Nat → Option PErr → Except PErr Str × List Nat
  | 0, _, lastError => (.error (lastError.getD .rateLimited), [])
  | fuel + 1, attempt, _ =>
    match oracle attempt with
    | .ok body => (.ok body, [])
    | .error e =>
      if is_retryable e && decide (attempt < maxRetries) then
        let r := fetchRetryGo maxRetries oracle fuel (attempt + 1) (some e)
        (r.1, 2 ^ attempt :: r.2)
      else (.error e, [])

/-- `client.rs` `fetch_with_retry` (attempt outcomes abstracted into an
oracle; the rate-limiter acquisition that precedes every attempt does not
affect the control flow modelled here). -/
def fetch_with_retry (maxRetries : Nat) (oracle : Nat → Except PErr Str) :
    Except PErr Str × List Nat :=
  fetchRetryGo maxRetries oracle (maxRetries + 1) 0 none

/-- `scraper.rs` `search`.  `fetch` abstracts `client.fetch` (body of the
fetched page) and `domOf` its parse; the second component lists the paths
fetched, in order. -/
def scraper_search (query : Str) (fetch : Str → Except PErr Str) (domOf : Str → Dom) :
    Except PErr (List VideoResult) × List Str :=
  if (trim query).isEmpty then
    (.error (.invalidId (cs "Search query cannot be empty")), [])
  else
    let searchUrl := build_search_url (trim query)
    let path := (stripPre (cs "https://prehraj.to") searchUrl).getD searchUrl
    match fetch path with
    | .error e => (.error e, [path])
    | .ok html => (parse_search_results (domOf html), [path])

/-- `scraper.rs` `get_download_url` (no fetch is ever made). -/
def scraper_get_download_url (slug id : Str) : Except PErr Str :=
  if (trim id).isEmpty then .error (.invalidId (cs "Video ID cannot be empty"))
  else .ok (build_download_url slug id)

/-- `scraper.rs` `get_direct_url`. -/
def scraper_get_direct_url (slug id : Str) (fetch : Str → Except PErr Str)
    (domOf : Str → Dom) : Except PErr Str × List Str :=
  if (trim id).isEmpty then
    (.error (.invalidId (cs "Video ID cannot be empty")), [])
  else
    let path := cs "/" ++ slug ++ cs "/" ++ id
    match fetch path with
    | .error e => (.error e, [path])
    | .ok html => (parse_direct_url html (domOf html), [path])

/-- `scraper.rs` `get_video_page_data`. -/
def scraper_get_video_page_data (slug id : Str) (fetch : Str → Except PErr Str) :
    Except PErr VideoPageData × List Str :=
  if (trim id).isEmpty then
    (.error (.invalidId (cs "Video ID cannot be empty")), [])
  else
    let path := cs "/" ++ slug ++ cs "/" ++ id
    match fetch path with
    | .error e => (.error e, [path])
    | .ok html =>
      (.ok { sources := parse_video_sources html
             subtitles := parse_subtitle_tracks html }, [path])

/-- `scraper.rs` `get_original_url`: cookie-seeding video-page fetch, then
the no-redirect download-page fetch, then the redirect-page parse. -/
def scraper_get_original_url (slug id : Str) (fetch : Str → Except PErr Str)
    (domOf : Str → Dom) : Except PErr VideoSource × List Str :=
  if (trim id).isEmpty then
    (.error (.invalidId (cs "Video ID cannot be empty")), [])
  else
    let videoPath := cs "/" ++ slug ++ cs "/" ++ id
    match fetch videoPath with
    | .error e => (.error e, [videoPath])
    | .ok _ =>
      let downloadPath := cs "/" ++ slug ++ cs "/" ++ id ++ cs "?do=download"
      match fetch downloadPath with
      | .error e => (.error e, [videoPath, downloadPath])
      | .ok html =>
        (parse_original_download_url (domOf html), [videoPath, downloadPath])

/-- `scraper.rs` `search_movie_all`. -/
def scraper_search_movie_all (movieName : Str) (year : Option Int)
    (fetch : Str → Except PErr Str) (domOf : Str → Dom) :
    Except PErr (List VideoResult) × List Str :=
  if (trim movieName).isEmpty then
    (.error (.invalidId (cs "Movie name cannot be empty")), [])
  else
    let query :=
      match year with
      | some y => trim movieName ++ cs " " ++ (toString y).data
      | none => trim movieName
    scraper_search query fetch domOf

/-- `scraper.rs` `search_movie`: first result of `search_movie_all`. -/
def scraper_search_movie (movieName : Str) (year : Option Int)
    (fetch : Str → Except PErr Str) (domOf : Str → Dom) :
    Except PErr (Option VideoResult) × List Str :=
  let r := scraper_search_movie_all movieName year fetch domOf
  match r.1 with
  | .error e => (.error e, r.2)
  | .ok results => (.ok results.head?, r.2)

/-- Greatest resolution among a list of sources (0 for the empty list). -/
def maxResOf (l : List VideoSource) : Nat :=
  l.foldl (fun a s => max a s.resolution) 0

/-- One escape map of the spec (`&`/`<`/`>`/`"`/`'` to its entity): every
occurrence of the character is replaced by the entity. -/
def escapeWith (c : Char) (ent : Str) (s : Str) : Str :=
  replaceAll [c] ent s

/-- Modelled from the spec sentence for format-B resolutions, read
literally: the number "obtained by stripping a trailing `p` from the label
and parsing the remaining digits, or 0 if that parse fails". -/
def specLabelResolution (label : Str) : Nat :=
  let stripped := if label.getLast? = some 'p' then label.dropLast else label
  if !stripped.isEmpty && stripped.all (fun c => c.isDigit) then digitsVal stripped
  else 0

/-- A video page with two VideoJS entries that tie at resolution 720. -/
def cTieHtml : Str :=
  cs "videos.push(\x7b src: \"https://a.premiumcdn.net/u1.mp4\", type: \x27v\x27, res: \x27720\x27, label: \x27720p\x27 \x7d); videos.push(\x7b src: \"https://a.premiumcdn.net/u2.mp4\", type: \x27v\x27, res: \x27720\x27, label: \x27720p\x27 \x7d);"

/-- A video page whose only player block is a JWPlayer source list with the
upper-case quality label `720P`. -/
def cJwCapHtml : Str :=
  cs "var sources = [ \x7b file: \"https://x.premiumcdn.net/v.mp4?token=1\", label: \x27720P\x27 \x7d ];"

/-- A video page whose only CDN reference is an inline-script redirect with
an HTML-escaped ampersand in the URL. -/
def cJsAmpHtml : Str :=
  cs "<script> window.location.href = \"https://x.premiumcdn.net/f.mp4?a=1&amp;b=2\"; </script>"

/-- The inline-script URL of `cJsAmpHtml`, exactly as captured. -/
def cJsAmpUrl : Str := cs "https://x.premiumcdn.net/f.mp4?a=1&amp;b=2"

/-- A JWPlayer track list whose label has three segments with an
upper-case trailing segment. -/
def cTrackHtml : Str :=
  cs "var tracks = [ \x7b file: \"https://x.premiumcdn.net/s.vtt?t=1\", label: \"A - B - C\", kind: \"captions\" \x7d ];"

/-- The track extracted from `cTrackHtml`. -/
def cTrackEntry : SubtitleTrack :=
  { url := cs "https://x.premiumcdn.net/s.vtt?t=1"
    language := cs "C"
    label := cs "A"
    is_default := false }

/-- The download-redirect document of the original-file example: a single
anchor whose href encodes `filename=Movie+2160p+HEVC.mkv`. -/
def cDlDoc : Dom :=
  .consElem (cs "html") []
    (.consElem (cs "body") []
      (.consElem (cs "h1") [] (.consText (cs "Redirect") .nilD)
        (.consElem (cs "p") []
          (.consElem (cs "a")
            [(cs "href",
              cs "https://pf-storage3.premiumcdn.net/165065360/abc?filename=Movie+2160p+HEVC.mkv&token=xyz&expires=123")]
            (.consText (cs "Please click here to continue") .nilD) .nilD)
          .nilD))
      .nilD)
    .nilD

/-- A search page with one navigation anchor (no heading) followed by one
genuine video card. -/
def cSkipDoc : Dom :=
  .consElem (cs "html") []
    (.consElem (cs "body") []
      (.consElem (cs "main") []
        (.consElem (cs "a") [(cs "href", cs "/some-page")]
          (.consText (cs "Not a video") .nilD)
          (.consElem (cs "a") [(cs "href", cs "/video/abc123")]
            (.consElem (cs "h3") [] (.consText (cs "Real Video") .nilD) .nilD)
            .nilD))
        .nilD)
      .nilD)
    .nilD

/-- The video card extracted from `cSkipDoc`. -/
def cSkipResult : VideoResult :=
  { name := cs "Real Video"
    url := cs "https://prehraj.to/video/abc123"
    video_id := cs "abc123"
    video_slug := cs "video"
    download_url := cs "https://prehraj.to/video/abc123?do=download"
    duration := none
    quality := none
    file_size := none }

/-- A document whose only anchor carries a CDN href with an escaped
ampersand. -/
def cAnchorDoc : Dom :=
  .consElem (cs "body") []
    (.consElem (cs "a")
      [(cs "href", cs "https://prg-c8.premiumcdn.net/1/f.mp4?token=a&amp;expires=1")]
      (.consText (cs "Download") .nilD) .nilD)
    .nilD

/-- An always-rate-limited attempt oracle. -/
def cRlOracle : Nat → Except PErr Str := fun _ => .error .rateLimited

lemma replaceAllF_nil (pat rep : Str) (n : Nat) : replaceAllF pat rep n [] = [] := by
  cases n <;> rfl

lemma replaceAllF_congr (pat rep : Str) (hpat : pat ≠ []) :
    ∀ n m s, List.length s ≤ n → List.length s ≤ m →
      replaceAllF pat rep n s = replaceAllF pat rep m s := by
  intro n
  induction n with
  | zero =>
    intro m s hn _
    have hs : s = [] := List.eq_nil_of_length_eq_zero (Nat.le_zero.mp hn)
    subst hs
    rw [replaceAllF_nil, replaceAllF_nil]
  | succ k ih =>
    intro m s hn hm
    match s with
    | [] => rw [replaceAllF_nil, replaceAllF_nil]
    | c :: rest =>
      match m with
      | 0 => simp at hm
      | m' + 1 =>
        have hlenpat : 1 ≤ pat.length := List.length_pos.mpr hpat
        simp only [replaceAllF]
        by_cases hp : pat.isPrefixOf (c :: rest) = true
        · simp only [hp, if_true]
          have hd : ((c :: rest).drop pat.length).length ≤ k := by
            simp only [List.length_drop, List.length_cons]
            simp only [List.length_cons] at hn
            omega
          have hd' : ((c :: rest).drop pat.length).length ≤ m' := by
            simp only [List.length_drop, List.length_cons]
            simp only [List.length_cons] at hm
            omega
          rw [ih m' _ hd hd']
        · simp only [Bool.not_eq_true] at hp
          simp only [hp, Bool.false_eq_true, if_false]
          have h1 : rest.length ≤ k := by
            simp only [List.length_cons] at hn; omega
          have h2 : rest.length ≤ m' := by
            simp only [List.length_cons] at hm; omega
          rw [ih m' rest h1 h2]

lemma replaceAll_nil (pat rep : Str) : replaceAll pat rep [] = [] := rfl

lemma replaceAll_cons (pat rep : Str) (hpat : pat ≠ []) (c : Char) (rest : Str) :
    replaceAll pat rep (c :: rest) =
      if pat.isPrefixOf (c :: rest) then
        rep ++ replaceAll pat rep ((c :: rest).drop pat.length)
      else c :: replaceAll pat rep rest := by
  have hlenpat : 1 ≤ pat.length := List.length_pos.mpr hpat
  show replaceAllF pat rep (rest.length + 1) (c :: rest) = _
  simp only [replaceAllF]
  by_cases hp : pat.isPrefixOf (c :: rest) = true
  · simp only [hp, if_true]
    have hd : ((c :: rest).drop pat.length).length ≤ rest.length := by
      simp only [List.length_drop, List.length_cons]; omega
    rw [replaceAllF_congr pat rep hpat rest.length _ _ hd (Nat.le_refl _)]
    rfl
  · simp only [Bool.not_eq_true] at hp
    simp only [hp, Bool.false_eq_true, if_false]
    rfl

lemma replaceAll_skip (pat rep : Str) (hpat : pat ≠ []) (c : Char) (rest : Str)
    (h : pat.isPrefixOf (c :: rest) = false) :
    replaceAll pat rep (c :: rest) = c :: replaceAll pat rep rest := by
  rw [replaceAll_cons pat rep hpat c rest, h]
  simp

lemma isPrefixOf_head_ne (p0 : Char) (pt : Str) (c : Char) (rest : Str) (h : p0 ≠ c) :
    (p0 :: pt).isPrefixOf (c :: rest) = false := by
  simp [List.isPrefixOf, h]

lemma isPrefixOf_two_ne (p0 p1 : Char) (pt : Str) (e0 e1 : Char) (l : Str)
    (h : p1 ≠ e1) : (p0 :: p1 :: pt).isPrefixOf (e0 :: e1 :: l) = false := by
  simp [List.isPrefixOf, h]

lemma replaceAll_id_of_ne (p0 : Char) (pt rep : Str) :
    ∀ s : Str, (∀ a ∈ s, a ≠ p0) → replaceAll (p0 :: pt) rep s = s := by
  intro s
  induction s with
  | nil => intro _; rfl
  | cons a as ih =>
    intro h
    have ha : p0 ≠ a := fun he => (h a (List.mem_cons_self a as)) he.symm
    rw [replaceAll_skip _ _ (by simp) a as (isPrefixOf_head_ne p0 pt a as ha),
      ih (fun b hb => h b (List.mem_cons_of_mem a hb))]

lemma no_amp_forall {s : Str} (h : '&' ∉ s) : ∀ a ∈ s, a ≠ '&' :=
  fun a ha he => h (he ▸ ha)

lemma decode_fix_of_no_amp (s : Str) (h : '&' ∉ s) : decode_html_entities s = s := by
  have h' := no_amp_forall h
  unfold decode_html_entities
  rw [show cs "&amp;" = '&' :: cs "amp;" from rfl,
    show cs "&lt;" = '&' :: cs "lt;" from rfl,
    show cs "&gt;" = '&' :: cs "gt;" from rfl,
    show cs "&quot;" = '&' :: cs "quot;" from rfl,
    show cs "&#39;" = '&' :: cs "#39;" from rfl]
  rw [replaceAll_id_of_ne _ _ _ s h', replaceAll_id_of_ne _ _ _ s h',
    replaceAll_id_of_ne _ _ _ s h', replaceAll_id_of_ne _ _ _ s h',
    replaceAll_id_of_ne _ _ _ s h']

lemma escapeWith_nil (c : Char) (ent : Str) : escapeWith c ent [] = [] := rfl

lemma escapeWith_cons (c : Char) (ent : Str) (a : Char) (s : Str) :
    escapeWith c ent (a :: s) =
      if a = c then ent ++ escapeWith c ent s else a :: escapeWith c ent s := by
  unfold escapeWith
  rw [replaceAll_cons [c] ent (by simp) a s]
  by_cases h : a = c
  · subst h
    simp [List.isPrefixOf]
  · rw [isPrefixOf_head_ne c [] a s (fun he => h he.symm)]
    simp [h]

lemma replaceAll_append_of_ne (p0 : Char) (pt rep : Str) :
    ∀ u v : Str, (∀ a ∈ u, a ≠ p0) →
      replaceAll (p0 :: pt) rep (u ++ v) = u ++ replaceAll (p0 :: pt) rep v := by
  intro u
  induction u with
  | nil => intro v _; simp
  | cons a as ih =>
    intro v h
    have ha : p0 ≠ a := fun he => (h a (List.mem_cons_self a as)) he.symm
    rw [List.cons_append,
      replaceAll_skip _ _ (by simp) a (as ++ v) (isPrefixOf_head_ne p0 pt a _ ha),
      ih v (fun b hb => h b (List.mem_cons_of_mem a hb))]
    rfl

lemma replaceAll_escape_invariant (pt rep : Str) (c : Char) (hc : c ≠ '&')
    (Et : Str) (hEt : ∀ a ∈ Et, a ≠ '&')
    (hnp : ∀ l : Str, ('&' :: pt).isPrefixOf (('&' :: Et) ++ l) = false) :
    ∀ s : Str, '&' ∉ s →
      replaceAll ('&' :: pt) rep (escapeWith c ('&' :: Et) s) =
        escapeWith c ('&' :: Et) s := by
  intro s
  induction s with
  | nil => intro _; rfl
  | cons a as ih =>
    intro h
    have ha : a ≠ '&' := no_amp_forall h a (List.mem_cons_self a as)
    have has : '&' ∉ as := fun hm => h (List.mem_cons_of_mem a hm)
    rw [escapeWith_cons]
    by_cases hac : a = c
    · simp only [hac, if_true]
      rw [List.cons_append, replaceAll_skip _ _ (by simp) '&' _
        (by
          have := hnp (escapeWith c ('&' :: Et) as)
          rw [List.cons_append] at this
          exact this),
        replaceAll_append_of_ne '&' pt rep Et _ hEt, ih has]
    · simp only [hac, if_false]
      rw [replaceAll_skip _ _ (by simp) a _
        (isPrefixOf_head_ne '&' pt a _ (fun he => ha he.symm)), ih has]

lemma replaceAll_unescape (c : Char) (Et : Str) :
    ∀ s : Str, '&' ∉ s →
      replaceAll ('&' :: Et) [c] (escapeWith c ('&' :: Et) s) = s := by
  intro s
  induction s with
  | nil => intro _; rfl
  | cons a as ih =>
    intro h
    have ha : a ≠ '&' := no_amp_forall h a (List.mem_cons_self a as)
    have has : '&' ∉ as := fun hm => h (List.mem_cons_of_mem a hm)
    rw [escapeWith_cons]
    by_cases hac : a = c
    · simp only [hac, if_true]
      have hpre : ('&' :: Et).isPrefixOf
          ('&' :: (Et ++ escapeWith c ('&' :: Et) as)) = true := by
        rw [← List.cons_append, List.isPrefixOf_iff_prefix]
        exact List.prefix_append _ _
      have hdrop : ('&' :: (Et ++ escapeWith c ('&' :: Et) as)).drop
          ('&' :: Et).length = escapeWith c ('&' :: Et) as := by
        rw [← List.cons_append]
        exact List.drop_left _ _
      rw [List.cons_append, replaceAll_cons ('&' :: Et) [c] (by simp) '&'
        (Et ++ escapeWith c ('&' :: Et) as), hpre, if_pos rfl, hdrop, ih has]
      simp [hac]
    · simp only [hac, if_false]
      rw [replaceAll_skip _ _ (by simp) a _
        (isPrefixOf_head_ne '&' Et a _ (fun he => ha he.symm)), ih has]

lemma decode_escape_amp (s : Str) (h : '&' ∉ s) :
    decode_html_entities (escapeWith '&' (cs "&amp;") s) = s := by
  have he : escapeWith '&' (cs "&amp;") s = s :=
    replaceAll_id_of_ne '&' [] (cs "&amp;") s (no_amp_forall h)
  rw [he, decode_fix_of_no_amp s h]

lemma decode_escape_lt (s : Str) (h : '&' ∉ s) :
    decode_html_entities (escapeWith '<' (cs "&lt;") s) = s := by
  unfold decode_html_entities
  rw [show (cs "&amp;") = '&' :: cs "amp;" from rfl,
    show (cs "&lt;") = '&' :: cs "lt;" from rfl,
    show (cs "&gt;") = '&' :: cs "gt;" from rfl,
    show (cs "&quot;") = '&' :: cs "quot;" from rfl,
    show (cs "&#39;") = '&' :: cs "#39;" from rfl,
    show (cs "<") = ['<'] from rfl, show (cs ">") = ['>'] from rfl,
    show (cs "\"") = ['"'] from rfl, show (cs "\x27") = ['\x27'] from rfl]
  rw [replaceAll_escape_invariant (cs "amp;") (cs "&") '<' (by decide) (cs "lt;") (by decide)
    (fun l => isPrefixOf_two_ne '&' 'a' (cs "mp;") '&' 'l' (cs "t;" ++ l) (by decide))
    s h]
  rw [replaceAll_unescape '<' (cs "lt;") s h]
  rw [replaceAll_id_of_ne '&' (cs "gt;") _ s (no_amp_forall h),
    replaceAll_id_of_ne '&' (cs "quot;") _ s (no_amp_forall h),
    replaceAll_id_of_ne '&' (cs "#39;") _ s (no_amp_forall h)]

lemma decode_escape_gt (s : Str) (h : '&' ∉ s) :
    decode_html_entities (escapeWith '>' (cs "&gt;") s) = s := by
  unfold decode_html_entities
  rw [show (cs "&amp;") = '&' :: cs "amp;" from rfl,
    show (cs "&lt;") = '&' :: cs "lt;" from rfl,
    show (cs "&gt;") = '&' :: cs "gt;" from rfl,
    show (cs "&quot;") = '&' :: cs "quot;" from rfl,
    show (cs "&#39;") = '&' :: cs "#39;" from rfl,
    show (cs "<") = ['<'] from rfl, show (cs ">") = ['>'] from rfl,
    show (cs "\"") = ['"'] from rfl, show (cs "\x27") = ['\x27'] from rfl]
  rw [replaceAll_escape_invariant (cs "amp;") (cs "&") '>' (by decide) (cs "gt;") (by decide)
    (fun l => isPrefixOf_two_ne '&' 'a' (cs "mp;") '&' 'g' (cs "t;" ++ l) (by decide))
    s h]
  rw [replaceAll_escape_invariant (cs "lt;") ['<'] '>' (by decide) (cs "gt;") (by decide)
    (fun l => isPrefixOf_two_ne '&' 'l' (cs "t;") '&' 'g' (cs "t;" ++ l) (by decide))
    s h]
  rw [replaceAll_unescape '>' (cs "gt;") s h]
  rw [replaceAll_id_of_ne '&' (cs "quot;") _ s (no_amp_forall h),
    replaceAll_id_of_ne '&' (cs "#39;") _ s (no_amp_forall h)]

lemma decode_escape_quot (s : Str) (h : '&' ∉ s) :
    decode_html_entities (escapeWith '"' (cs "&quot;") s) = s := by
  unfold decode_html_entities
  rw [show (cs "&amp;") = '&' :: cs "amp;" from rfl,
    show (cs "&lt;") = '&' :: cs "lt;" from rfl,
    show (cs "&gt;") = '&' :: cs "gt;" from rfl,
    show (cs "&quot;") = '&' :: cs "quot;" from rfl,
    show (cs "&#39;") = '&' :: cs "#39;" from rfl,
    show (cs "<") = ['<'] from rfl, show (cs ">") = ['>'] from rfl,
    show (cs "\"") = ['"'] from rfl, show (cs "\x27") = ['\x27'] from rfl]
  rw [replaceAll_escape_invariant (cs "amp;") (cs "&") '"' (by decide) (cs "quot;") (by decide)
    (fun l => isPrefixOf_two_ne '&' 'a' (cs "mp;") '&' 'q' (cs "uot;" ++ l) (by decide))
    s h]
  rw [replaceAll_escape_invariant (cs "lt;") ['<'] '"' (by decide) (cs "quot;") (by decide)
    (fun l => isPrefixOf_two_ne '&' 'l' (cs "t;") '&' 'q' (cs "uot;" ++ l) (by decide))
    s h]
  rw [replaceAll_escape_invariant (cs "gt;") ['>'] '"' (by decide) (cs "quot;") (by decide)
    (fun l => isPrefixOf_two_ne '&' 'g' (cs "t;") '&' 'q' (cs "uot;" ++ l) (by decide))
    s h]
  rw [replaceAll_unescape '"' (cs "quot;") s h]
  rw [replaceAll_id_of_ne '&' (cs "#39;") _ s (no_amp_forall h)]

lemma decode_escape_apos (s : Str) (h : '&' ∉ s) :
    decode_html_entities (escapeWith '\x27' (cs "&#39;") s) = s := by
  unfold decode_html_entities
  rw [show (cs "&amp;") = '&' :: cs "amp;" from rfl,
    show (cs "&lt;") = '&' :: cs "lt;" from rfl,
    show (cs "&gt;") = '&' :: cs "gt;" from rfl,
    show (cs "&quot;") = '&' :: cs "quot;" from rfl,
    show (cs "&#39;") = '&' :: cs "#39;" from rfl,
    show (cs "<") = ['<'] from rfl, show (cs ">") = ['>'] from rfl,
    show (cs "\"") = ['"'] from rfl, show (cs "\x27") = ['\x27'] from rfl]
  rw [replaceAll_escape_invariant (cs "amp;") (cs "&") '\x27' (by decide) (cs "#39;") (by decide)
    (fun l => isPrefixOf_two_ne '&' 'a' (cs "mp;") '&' '#' (cs "39;" ++ l) (by decide))
    s h]
  rw [replaceAll_escape_invariant (cs "lt;") ['<'] '\x27' (by decide) (cs "#39;") (by decide)
    (fun l => isPrefixOf_two_ne '&' 'l' (cs "t;") '&' '#' (cs "39;" ++ l) (by decide))
    s h]
  rw [replaceAll_escape_invariant (cs "gt;") ['>'] '\x27' (by decide) (cs "#39;") (by decide)
    (fun l => isPrefixOf_two_ne '&' 'g' (cs "t;") '&' '#' (cs "39;" ++ l) (by decide))
    s h]
  rw [replaceAll_escape_invariant (cs "quot;") ['\"'] '\x27' (by decide) (cs "#39;") (by decide)
    (fun l => isPrefixOf_two_ne '&' 'q' (cs "uot;") '&' '#' (cs "39;" ++ l) (by decide))
    s h]
  rw [replaceAll_unescape '\x27' (cs "#39;") s h]

/-- C7 (counterexample): `decode_html_entities` is not idempotent.  On
`&amp;amp;` the first decode leaves `&amp;` (the replacement scan does not
revisit replaced text), and a second decode reduces it further to `&`. -/
theorem c7_counterexample :
    decode_html_entities (decode_html_entities (cs "&amp;amp;")) ≠
      decode_html_entities (cs "&amp;amp;") := by decide

/-- C7 (amended): `decode_html_entities` fixes every ampersand-free string
— hence it is idempotent on ampersand-free strings — and is a left inverse
of each of the five escape maps on ampersand-free strings; moreover
`decode("a=1&amp;b=2") = "a=1&b=2"`.  (Unrestricted idempotence and the
unrestricted left-inverse law are refuted by `c7_counterexample`.) -/
theorem c7_decode_entities :
    (∀ s : Str, '&' ∉ s → decode_html_entities s = s) ∧
    (∀ s : Str, '&' ∉ s →
      decode_html_entities (decode_html_entities s) = decode_html_entities s) ∧
    (∀ s : Str, '&' ∉ s →
      decode_html_entities (escapeWith '&' (cs "&amp;") s) = s ∧
      decode_html_entities (escapeWith '<' (cs "&lt;") s) = s ∧
      decode_html_entities (escapeWith '>' (cs "&gt;") s) = s ∧
      decode_html_entities (escapeWith '"' (cs "&quot;") s) = s ∧
      decode_html_entities (escapeWith '\x27' (cs "&#39;") s) = s) ∧
    decode_html_entities (cs "a=1&amp;b=2") = cs "a=1&b=2" := by
  refine ⟨fun s h => decode_fix_of_no_amp s h, fun s h => ?_,
    fun s h => ⟨decode_escape_amp s h, decode_escape_lt s h, decode_escape_gt s h,
      decode_escape_quot s h, decode_escape_apos s h⟩, by decide⟩
  rw [decode_fix_of_no_amp s h, decode_fix_of_no_amp s h]

/-- C7 (witness): the amended theorem applied at the ampersand-free string
`a<b` and the `<` escape. -/
theorem c7_witness :
    decode_html_entities (escapeWith '<' (cs "&lt;") (cs "a<b")) = cs "a<b" :=
  (c7_decode_entities.2.2.1 (cs "a<b") (by decide)).2.1

lemma fetchRetryGo_succ (maxR : Nat) (oracle : Nat → Except PErr Str)
    (fuel attempt : Nat) (lastError : Option PErr) :
    fetchRetryGo maxR oracle (fuel + 1) attempt lastError =
      match oracle attempt with
      | .ok body => (.ok body, [])
      | .error e =>
        if is_retryable e && decide (attempt < maxR) then
          ((fetchRetryGo maxR oracle fuel (attempt + 1) (some e)).1,
            2 ^ attempt :: (fetchRetryGo maxR oracle fuel (attempt + 1) (some e)).2)
        else (.error e, []) := rfl

lemma fetchRetryGo_spec (maxR : Nat) (oracle : Nat → Except PErr Str) :
    ∀ fuel attempt lastError, attempt + fuel = maxR →
      ∀ res sleeps,
        fetchRetryGo maxR oracle (fuel + 1) attempt lastError = (res, sleeps) →
        sleeps.length + attempt ≤ maxR ∧
        sleeps = (List.range sleeps.length).map (fun k => 2 ^ (attempt + k)) ∧
        (∀ k < sleeps.length,
          ∃ e, oracle (attempt + k) = .error e ∧ is_retryable e = true) ∧
        (∀ b, res = .ok b → oracle (attempt + sleeps.length) = .ok b) ∧
        (∀ e, res = .error e → oracle (attempt + sleeps.length) = .error e ∧
          (is_retryable e = false ∨ attempt + sleeps.length = maxR)) := by
  intro fuel
  induction fuel with
  | zero =>
    intro attempt lastError hA res sleeps h
    rw [fetchRetryGo_succ, ] at h
    cases ho : oracle attempt with
    | ok b =>
      rw [ho] at h
      simp only [] at h
      injection h with h1 h2
      subst h1; subst h2
      refine ⟨by simp; omega, by simp, by simp, ?_, ?_⟩
      · intro b' hb
        cases hb
        simpa using ho
      · intro e he
        cases he
    | error e =>
      have hlt : decide (attempt < maxR) = false := by simp; omega
      rw [ho] at h
      simp only [hlt, Bool.and_false, Bool.false_eq_true, if_false] at h
      injection h with h1 h2
      subst h1; subst h2
      refine ⟨by simp; omega, by simp, by simp, ?_, ?_⟩
      · intro b hb
        cases hb
      · intro e' he
        cases he
        refine ⟨by simpa using ho, Or.inr (by simp; omega)⟩
  | succ f ih =>
    intro attempt lastError hA res sleeps h
    have haltm : attempt < maxR := by omega
    rw [fetchRetryGo_succ] at h
    cases ho : oracle attempt with
    | ok b =>
      rw [ho] at h
      simp only [] at h
      injection h with h1 h2
      subst h1; subst h2
      refine ⟨by simp; omega, by simp, by simp, ?_, ?_⟩
      · intro b' hb
        cases hb
        simpa using ho
      · intro e he
        cases he
    | error e =>
      rw [ho] at h
      cases hre : is_retryable e with
      | true =>
        have hlt : decide (attempt < maxR) = true := by simpa using haltm
        simp only [hre, hlt, Bool.and_self, if_true] at h
        obtain ⟨r1, r2, hr⟩ :
            ∃ r1 r2, fetchRetryGo maxR oracle (f + 1) (attempt + 1) (some e) =
              (r1, r2) := ⟨_, _, rfl⟩
        rw [hr] at h
        simp only [] at h
        injection h with h1 h2
        subst h1; subst h2
        obtain ⟨ih1, ih2, ih3, ih4, ih5⟩ :=
          ih (attempt + 1) (some e) (by omega) r1 r2 hr
        refine ⟨?_, ?_, ?_, ?_, ?_⟩
        · simp only [List.length_cons]
          omega
        · simp only [List.length_cons, List.range_succ_eq_map, List.map_cons,
            List.map_map, Nat.add_zero]
          congr 1
          exact ih2.trans (List.map_congr_left (fun k _ => by
            simp only [Function.comp_apply]
            congr 1
            omega))
        · intro k hk
          match k with
          | 0 => exact ⟨e, by simpa using ho, hre⟩
          | j + 1 =>
            have hj : j < r2.length := by
              simp only [List.length_cons] at hk
              omega
            obtain ⟨e2, he2, hre2⟩ := ih3 j hj
            refine ⟨e2, ?_, hre2⟩
            rw [show attempt + (j + 1) = attempt + 1 + j by omega]
            exact he2
        · intro b hb
          have h4 := ih4 b hb
          rw [show attempt + ((2 ^ attempt :: r2).length) = attempt + 1 + r2.length
            by simp only [List.length_cons]; omega]
          exact h4
        · intro e2 he
          obtain ⟨h1, h2⟩ := ih5 e2 he
          refine ⟨?_, ?_⟩
          · rw [show attempt + ((2 ^ attempt :: r2).length) = attempt + 1 + r2.length
              by simp only [List.length_cons]; omega]
            exact h1
          · rcases h2 with h2 | h2
            · exact Or.inl h2
            · exact Or.inr (by simp only [List.length_cons]; omega)
      | false =>
        simp only [hre, Bool.false_and, Bool.false_eq_true, if_false] at h
        injection h with h1 h2
        subst h1; subst h2
        refine ⟨by simp; omega, by simp, by simp, ?_, ?_⟩
        · intro b hb
          cases hb
        · intro e2 he
          cases he
          exact ⟨by simpa using ho, Or.inl hre⟩

/-- C2: for every retry budget and every sequence of attempt outcomes, the
fetch loop sleeps `2^0, 2^1, …` seconds before its successive retries, it
retries at most `max_retries` times and only after errors satisfying
`is_retryable` (transport failures and rate limits); the final outcome is
exactly the outcome of the last attempt made — in particular an error is
returned to the caller unmodified, and that happens only when it is
non-retryable or the retry budget is exhausted. -/
theorem c2_retry_policy :
    ∀ (maxRetries : Nat) (oracle : Nat → Except PErr Str)
      (res : Except PErr Str) (sleeps : List Nat),
      fetch_with_retry maxRetries oracle = (res, sleeps) →
      sleeps.length ≤ maxRetries ∧
      sleeps = (List.range sleeps.length).map (fun k => 2 ^ k) ∧
      (∀ k < sleeps.length, ∃ e, oracle k = .error e ∧ is_retryable e = true) ∧
      (∀ b, res = .ok b → oracle sleeps.length = .ok b) ∧
      (∀ e, res = .error e → oracle sleeps.length = .error e ∧
        (is_retryable e = false ∨ sleeps.length = maxRetries)) := by
  intro maxRetries oracle res sleeps h
  obtain ⟨h1, h2, h3, h4, h5⟩ :=
    fetchRetryGo_spec maxRetries oracle maxRetries 0 none (by omega) res sleeps h
  refine ⟨by omega, by simpa using h2, ?_, by simpa using h4, by simpa using h5⟩
  intro k hk
  simpa using h3 k hk

/-- C2 (witness): with budget 1 and an always-rate-limited oracle the loop
sleeps once (1 second), and the surfaced error is the last attempt's
rate-limit error with the budget exhausted. -/
theorem c2_witness :
    cRlOracle (List.length [1]) = .error .rateLimited ∧
      (is_retryable .rateLimited = false ∨ List.length [1] = 1) :=
  (c2_retry_policy 1 cRlOracle (.error .rateLimited) [1]
    rfl).2.2.2.2 .rateLimited rfl

/-- C9: every scraper operation rejects an empty or whitespace-only query /
movie name / video identifier with the invalid-argument error (`InvalidId`)
and issues no fetch: the request list of the operation is empty. -/
theorem c9_empty_input_rejected :
    (∀ q (f : Str → Except PErr Str) (d : Str → Dom), (trim q).isEmpty = true →
      scraper_search q f d =
        (.error (.invalidId (cs "Search query cannot be empty")), [])) ∧
    (∀ n y (f : Str → Except PErr Str) (d : Str → Dom), (trim n).isEmpty = true →
      scraper_search_movie_all n y f d =
        (.error (.invalidId (cs "Movie name cannot be empty")), [])) ∧
    (∀ n y (f : Str → Except PErr Str) (d : Str → Dom), (trim n).isEmpty = true →
      scraper_search_movie n y f d =
        (.error (.invalidId (cs "Movie name cannot be empty")), [])) ∧
    (∀ s i (f : Str → Except PErr Str) (d : Str → Dom), (trim i).isEmpty = true →
      scraper_get_direct_url s i f d =
        (.error (.invalidId (cs "Video ID cannot be empty")), [])) ∧
    (∀ s i (f : Str → Except PErr Str), (trim i).isEmpty = true →
      scraper_get_video_page_data s i f =
        (.error (.invalidId (cs "Video ID cannot be empty")), [])) ∧
    (∀ s i (f : Str → Except PErr Str) (d : Str → Dom), (trim i).isEmpty = true →
      scraper_get_original_url s i f d =
        (.error (.invalidId (cs "Video ID cannot be empty")), [])) ∧
    (∀ s i, (trim i).isEmpty = true →
      scraper_get_download_url s i =
        .error (.invalidId (cs "Video ID cannot be empty"))) := by
  refine ⟨?_, ?_, ?_, ?_, ?_, ?_, ?_⟩
  · intro q f d h
    simp [scraper_search, h]
  · intro n y f d h
    simp [scraper_search_movie_all, h]
  · intro n y f d h
    simp [scraper_search_movie, scraper_search_movie_all, h]
  · intro s i f d h
    simp [scraper_get_direct_url, h]
  · intro s i f h
    simp [scraper_get_video_page_data, h]
  · intro s i f d h
    simp [scraper_get_original_url, h]
  · intro s i h
    simp [scraper_get_download_url, h]

/-- C9 (witness): the whitespace-only query `" "` is rejected by `search`
with `InvalidId` and zero fetches. -/
theorem c9_witness :
    scraper_search (cs " ") (fun _ => .error .rateLimited) (fun _ => .nilD) =
      (.error (.invalidId (cs "Search query cannot be empty")), []) :=
  c9_empty_input_rejected.1 (cs " ") (fun _ => .error .rateLimited)
    (fun _ => .nilD) (by decide)

lemma jwSourceAt_spec (t : Str) (p : VideoSource × Str) (h : jwSourceAt t = some p) :
    p.1.is_default = false ∧ p.1.resolution = parse_resolution_from_label p.1.label := by
  unfold jwSourceAt at h
  rw [Option.bind_eq_some] at h
  obtain ⟨t1, _, h⟩ := h
  split at h
  · rw [Option.bind_eq_some] at h
    obtain ⟨pr, _, h⟩ := h
    split at h
    · rw [Option.map_eq_some'] at h
      obtain ⟨q, _, h⟩ := h
      subst h
      exact ⟨rfl, rfl⟩
    · cases h
  · cases h

lemma scanJwSourcesF_mem : ∀ fuel s x, x ∈ scanJwSourcesF fuel s →
    x.is_default = false ∧ x.resolution = parse_resolution_from_label x.label := by
  intro fuel
  induction fuel with
  | zero =>
    intro s x hx
    simp [scanJwSourcesF] at hx
  | succ f ih =>
    intro s x hx
    match s with
    | [] => simp [scanJwSourcesF] at hx
    | c :: rest =>
      rw [scanJwSourcesF] at hx
      split at hx
      · split at hx
        · rcases List.mem_cons.mp hx with hx | hx
          · subst hx
            exact jwSourceAt_spec rest _ (by assumption)
          · exact ih _ _ hx
        · exact ih _ _ hx
      · exact ih _ _ hx

lemma jwTrackAt_spec (html t : Str) (p : SubtitleTrack × Str)
    (h : jwTrackAt html t = some p) :
    ∃ raw, p.1.label = clean_subtitle_label raw ∧
      p.1.language = extract_language_from_label raw := by
  unfold jwTrackAt at h
  rw [Option.bind_eq_some] at h
  obtain ⟨t1, _, h⟩ := h
  split at h
  · rw [Option.bind_eq_some] at h
    obtain ⟨pr, _, h⟩ := h
    split at h
    · rw [Option.bind_eq_some] at h
      obtain ⟨r, _, h⟩ := h
      rw [Option.bind_eq_some] at h
      obtain ⟨t6, _, h⟩ := h
      rw [Option.map_eq_some'] at h
      obtain ⟨w, _, h⟩ := h
      subst h
      exact ⟨r.1, rfl, rfl⟩
    · cases h
  · cases h

lemma scanJwTracksF_mem : ∀ fuel (html s : Str) t, t ∈ scanJwTracksF html fuel s →
    ∃ raw, t.label = clean_subtitle_label raw ∧
      t.language = extract_language_from_label raw := by
  intro fuel
  induction fuel with
  | zero =>
    intro html s t ht
    simp [scanJwTracksF] at ht
  | succ f ih =>
    intro html s t ht
    match s with
    | [] => simp [scanJwTracksF] at ht
    | c :: rest =>
      rw [scanJwTracksF] at ht
      split at ht
      · split at ht
        · rcases List.mem_cons.mp ht with ht | ht
          · subst ht
            exact jwTrackAt_spec html rest _ (by assumption)
          · exact ih _ _ _ ht
        · exact ih _ _ _ ht
      · exact ih _ _ _ ht

/-- C10: every source produced by the JWPlayer (format B) extraction path
has `is_default = false`; in particular, when the VideoJS path yields
nothing — so `parse_video_sources` falls back to format B — no returned
source is default-marked. -/
theorem c10_jwplayer_never_default :
    (∀ html x, x ∈ extract_jwplayer_sources html → x.is_default = false) ∧
    (∀ html x, extract_videojs_sources html = [] → x ∈ parse_video_sources html →
      x.is_default = false) := by
  constructor
  · intro html x hx
    exact (scanJwSourcesF_mem _ _ _ hx).1
  · intro html x hv hx
    rw [parse_video_sources, hv] at hx
    simp only [List.isEmpty_nil, Bool.not_true, Bool.false_eq_true, if_false] at hx
    exact (scanJwSourcesF_mem _ _ _ hx).1

/-- C10 (witness): the single JWPlayer source of `cJwCapHtml` is not
default-marked. -/
theorem c10_witness :
    ({ url := cs "https://x.premiumcdn.net/v.mp4?token=1", label := cs "720P",
       resolution := 720, is_default := false,
       format := some (cs "mp4") } : VideoSource).is_default = false :=
  c10_jwplayer_never_default.1 cJwCapHtml _ (by decide)

/-- C4 (counterexample): the JWPlayer entry with quality label `720P`
carries resolution 720 (the code trims, lower-cases and strips all
trailing `p`s before parsing), while the claim's literal derivation —
strip one trailing `p`, then parse the remaining digits — yields 0. -/
theorem c4_counterexample :
    (parse_video_sources cJwCapHtml).map (fun x => (x.label, x.resolution)) =
      [(cs "720P", 720)] ∧ specLabelResolution (cs "720P") = 0 ∧
      (720 : Nat) ≠ specLabelResolution (cs "720P") := by decide

/-- C4 (amended): `parse_video_sources` returns the VideoJS results
whenever that format yields at least one entry and attempts the JWPlayer
format only when VideoJS yields none — the two lists are never merged —
and every JWPlayer entry's resolution equals the label after trimming,
lower-casing, stripping all trailing `p` characters and `u32`-parsing the
remainder (0 on failure), i.e. `parse_resolution_from_label`. -/
theorem c4_dual_format :
    (∀ html, extract_videojs_sources html ≠ [] →
      parse_video_sources html = extract_videojs_sources html) ∧
    (∀ html, extract_videojs_sources html = [] →
      parse_video_sources html = extract_jwplayer_sources html) ∧
    (∀ html x, x ∈ extract_jwplayer_sources html →
      x.resolution = parse_resolution_from_label x.label) := by
  refine ⟨?_, ?_, ?_⟩
  · intro html h
    rw [parse_video_sources]
    cases hl : extract_videojs_sources html with
    | nil => exact absurd hl h
    | cons x xs => simp
  · intro html h
    rw [parse_video_sources, h]
    simp
  · intro html x hx
    exact (scanJwSourcesF_mem _ _ _ hx).2

/-- C4 (witness): the amended per-entry resolution law applied to the
`720P`-labelled JWPlayer source of `cJwCapHtml`. -/
theorem c4_witness :
    ({ url := cs "https://x.premiumcdn.net/v.mp4?token=1", label := cs "720P",
       resolution := 720, is_default := false,
       format := some (cs "mp4") } : VideoSource).resolution =
      parse_resolution_from_label
        ({ url := cs "https://x.premiumcdn.net/v.mp4?token=1", label := cs "720P",
           resolution := 720, is_default := false,
           format := some (cs "mp4") } : VideoSource).label :=
  c4_dual_format.2.2 cJwCapHtml _ (by decide)

/-- C6 (counterexample): through the JWPlayer (format B) path, the raw
label `A - B - C` yields language `C` — the trailing segment verbatim —
whereas the claim's rule (trailing segment lower-cased) demands `c`. -/
theorem c6_counterexample :
    (parse_subtitle_tracks cTrackHtml).map (fun t => (t.label, t.language)) =
      [(cs "A", cs "C")] ∧ toLowerStr (cs "C") ≠ cs "C" := by decide

/-- C6 (amended): a format-B subtitle label is cleaned to its first
`" - "`-separated segment (trimmed), and the language is the trailing
segment trimmed verbatim when the descriptor has at least three segments,
else the first segment trimmed and lower-cased; `"ENG - 8175377 - eng"`
gives label `ENG` / language `eng`, and `"Simple"` gives label `Simple` /
language `simple`.  Every track of the JWPlayer path derives its label and
language from its raw descriptor by exactly these two functions. -/
theorem c6_subtitle_label_language :
    (∀ raw, 3 ≤ (splitOnSub (cs " - ") raw).length →
      extract_language_from_label raw =
        trim ((splitOnSub (cs " - ") raw).getLastD [])) ∧
    (∀ raw, (splitOnSub (cs " - ") raw).length < 3 →
      extract_language_from_label raw =
        toLowerStr (trim ((splitOnSub (cs " - ") raw).headD []))) ∧
    (∀ raw, clean_subtitle_label raw =
      trim ((splitOnSub (cs " - ") raw).headD raw)) ∧
    clean_subtitle_label (cs "ENG - 8175377 - eng") = cs "ENG" ∧
    extract_language_from_label (cs "ENG - 8175377 - eng") = cs "eng" ∧
    clean_subtitle_label (cs "Simple") = cs "Simple" ∧
    extract_language_from_label (cs "Simple") = cs "simple" ∧
    (∀ html t, t ∈ extract_jwplayer_tracks html →
      ∃ raw, t.label = clean_subtitle_label raw ∧
        t.language = extract_language_from_label raw) := by
  refine ⟨?_, ?_, fun raw => rfl, by decide, by decide, by decide, by decide, ?_⟩
  · intro raw h
    rw [extract_language_from_label]
    simp only [if_pos h]
  · intro raw h
    rw [extract_language_from_label]
    simp only [if_neg (Nat.not_le.mpr h)]
  · intro html t ht
    exact scanJwTracksF_mem _ html _ t ht

/-- C6 (witness): the JWPlayer track of `cTrackHtml` (label `A`, language
`C`) is derived from a raw descriptor by the two label functions. -/
theorem c6_witness :
    ∃ raw, cTrackEntry.label = clean_subtitle_label raw ∧
      cTrackEntry.language = extract_language_from_label raw :=
  c6_subtitle_label_language.2.2.2.2.2.2.2 cTrackHtml cTrackEntry (by decide)

lemma mbkStep_some (key : VideoSource → Nat) (m x : VideoSource) :
    mbkStep key (some m) x = some (if key m ≤ key x then x else m) := by
  rw [mbkStep]
  split <;> rfl

lemma foldl_mbkStep_some (key : VideoSource → Nat) :
    ∀ (l : List VideoSource) m, ∃ m2, l.foldl (mbkStep key) (some m) = some m2 := by
  intro l
  induction l with
  | nil => exact fun m => ⟨m, rfl⟩
  | cons x xs ih =>
    intro m
    rw [List.foldl_cons, mbkStep_some]
    exact ih _

lemma max_by_key_ne_nil (key : VideoSource → Nat) (l : List VideoSource)
    (h : l ≠ []) : ∃ m, max_by_key key l = some m := by
  match l with
  | [] => exact absurd rfl h
  | x :: xs =>
    rw [max_by_key, List.foldl_cons]
    exact foldl_mbkStep_some key xs x

lemma max_by_key_none_iff (key : VideoSource → Nat) (l : List VideoSource)
    (h : max_by_key key l = none) : l = [] := by
  match l with
  | [] => rfl
  | x :: xs =>
    obtain ⟨m, hm⟩ := max_by_key_ne_nil key (x :: xs) (by simp)
    rw [hm] at h
    cases h

lemma maxResOf_append (l : List VideoSource) (x : VideoSource) :
    maxResOf (l ++ [x]) = max (maxResOf l) x.resolution := by
  rw [maxResOf, maxResOf, List.foldl_append]
  rfl

/-- `max_by_key` on `resolution` returns exactly the last element of the
list attaining the maximal resolution. -/
lemma max_by_key_lastArgmax (l : List VideoSource) :
    max_by_key (fun s => s.resolution) l =
      l.reverse.find? (fun s => s.resolution == maxResOf l) := by
  induction l using List.reverseRecOn with
  | nil => rfl
  | append_singleton l x ih =>
    have hfold : max_by_key (fun s => s.resolution) (l ++ [x]) =
        mbkStep (fun s => s.resolution) (max_by_key (fun s => s.resolution) l) x := by
      rw [max_by_key, max_by_key, List.foldl_append]
      rfl
    have hrev : (l ++ [x]).reverse = x :: l.reverse := by simp
    cases hmk : max_by_key (fun s => s.resolution) l with
    | none =>
      have hl : l = [] := max_by_key_none_iff _ _ hmk
      subst hl
      rw [hfold, hmk, mbkStep]
      simp [maxResOf]
    | some m =>
      have hfind0 : List.find? (fun s => s.resolution == maxResOf l) l.reverse =
          some m := ih.symm.trans hmk
      have hm_res : m.resolution = maxResOf l := by
        have hp := List.find?_some hfind0
        simpa only [beq_iff_eq] using hp
      rw [hfold, hmk, mbkStep_some, hrev, maxResOf_append]
      by_cases hle : m.resolution ≤ x.resolution
      · have hmax : max (maxResOf l) x.resolution = x.resolution := by
          rw [← hm_res]
          omega
        rw [if_pos hle, hmax]
        rw [List.find?_cons_of_pos _ (by simp)]
      · have hmax : max (maxResOf l) x.resolution = maxResOf l := by
          rw [← hm_res]
          omega
        rw [if_neg hle, hmax]
        rw [List.find?_cons_of_neg _ (by
          simp only [beq_iff_eq, ← hm_res]
          omega)]
        exact hfind0.symm

set_option maxRecDepth 8192 in
/-- C1 (counterexample): on a page whose two structured sources tie at
resolution 720, `parse_direct_url` returns the second (last-seen) URL, not
the first-seen one: `Iterator::max_by_key` resolves ties to the last
element. -/
theorem c1_counterexample :
    (parse_video_sources cTieHtml).map (fun s => (s.url, s.resolution)) =
      [(cs "https://a.premiumcdn.net/u1.mp4", 720),
        (cs "https://a.premiumcdn.net/u2.mp4", 720)] ∧
    parse_direct_url cTieHtml .nilD = .ok (cs "https://a.premiumcdn.net/u2.mp4") ∧
    cs "https://a.premiumcdn.net/u1.mp4" ≠ cs "https://a.premiumcdn.net/u2.mp4" := by
  refine ⟨by rfl, by rfl, by decide⟩

/-- C1 (amended): whenever the source extractor finds at least one source,
`parse_direct_url` returns the URL of the source with the greatest
resolution, and when several sources share that greatest resolution it
returns the LAST-seen such source (the last in extraction order). -/
theorem c1_direct_url_best :
    ∀ (html : Str) (d : Dom), parse_video_sources html ≠ [] →
      ∃ best,
        (parse_video_sources html).reverse.find?
          (fun s => s.resolution == maxResOf (parse_video_sources html)) =
            some best ∧
        parse_direct_url html d = .ok best.url ∧
        best ∈ parse_video_sources html ∧
        best.resolution = maxResOf (parse_video_sources html) := by
  intro html d h
  obtain ⟨m, hm⟩ := max_by_key_ne_nil (fun s => s.resolution) _ h
  have hfind := (max_by_key_lastArgmax (parse_video_sources html)).symm.trans hm
  refine ⟨m, hfind, ?_, ?_, ?_⟩
  · rw [parse_direct_url, hm]
  · exact List.mem_reverse.mp (List.mem_of_find?_eq_some hfind)
  · have hp := List.find?_some hfind
    simpa only [beq_iff_eq] using hp

set_option maxRecDepth 8192 in
/-- C1 (witness): the amended selection rule applied to the tie page
`cTieHtml`. -/
theorem c1_witness :
    ∃ best,
      (parse_video_sources cTieHtml).reverse.find?
        (fun s => s.resolution == maxResOf (parse_video_sources cTieHtml)) =
          some best ∧
      parse_direct_url cTieHtml .nilD = .ok best.url ∧
      best ∈ parse_video_sources cTieHtml ∧
      best.resolution = maxResOf (parse_video_sources cTieHtml) :=
  c1_direct_url_best cTieHtml .nilD (by decide)

set_option maxRecDepth 8192 in
/-- C3 (counterexample): a page whose CDN link sits in an inline-script
redirect with an HTML-escaped ampersand: `parse_direct_url` returns the
captured URL verbatim, still containing `&amp;` — the inline-script
strategy does not entity-decode its capture. -/
theorem c3_counterexample :
    parse_direct_url cJsAmpHtml .nilD = .ok cJsAmpUrl ∧
      decode_html_entities cJsAmpUrl ≠ cJsAmpUrl := by
  refine ⟨by rfl, by decide⟩

/-- C3 (amended): the anchor, media-element, meta-refresh and raw-pattern
fallbacks return `decode_html_entities` of the raw extracted string (whose
raw form satisfies the CDN predicate where one is checked), while the
inline-script fallback returns the captured string verbatim, with no
decoding; the structured-source step likewise returns the captured URL
verbatim (see `c1_direct_url_best`). -/
theorem c3_decoding_paths :
    (∀ d u, extract_from_anchor d = some u →
      ∃ raw, firstCdnHrefD d = some raw ∧ is_cdn_url raw = true ∧
        u = decode_html_entities raw) ∧
    (∀ d u, extract_from_video_element d = some u →
      ∃ raw, is_cdn_url raw = true ∧ u = decode_html_entities raw) ∧
    (∀ d u, extract_from_meta_refresh d = some u →
      ∃ raw, metaRefreshRaw d = some raw ∧ is_cdn_url raw = true ∧
        u = decode_html_entities raw) ∧
    (∀ h u, extract_cdn_url_generic h = some u →
      ∃ raw, u = decode_html_entities raw) ∧
    (∀ h u, extract_from_javascript h = some u →
      ∃ lit, lit ∈ [cs "window.location.href", cs "window.location",
        cs "location.href", cs "location"] ∧ jsScan lit h = some u) := by
  refine ⟨?_, ?_, ?_, ?_, ?_⟩
  · intro d u h
    rw [extract_from_anchor, Option.map_eq_some'] at h
    obtain ⟨raw, hraw, hu⟩ := h
    exact ⟨raw, hraw, List.find?_some hraw, hu.symm⟩
  · intro d u h
    rw [extract_from_video_element, Option.map_eq_some'] at h
    obtain ⟨raw, hraw, hu⟩ := h
    refine ⟨raw, ?_, hu.symm⟩
    cases h1 : firstCdnSrc (cs "video") d with
    | some r =>
      rw [h1] at hraw
      simp only [Option.orElse] at hraw
      cases hraw
      exact List.find?_some h1
    | none =>
      rw [h1] at hraw
      simp only [Option.orElse] at hraw
      exact List.find?_some hraw
  · intro d u h
    rw [extract_from_meta_refresh, Option.map_eq_some'] at h
    obtain ⟨raw, hraw, hu⟩ := h
    refine ⟨raw, hraw, ?_, hu.symm⟩
    have hmem : raw ∈ (domElems d).filterMap (fun e =>
        if e.tag = cs "meta" && attrOf (cs "http-equiv") e = some (cs "refresh") then
          (attrOf (cs "content") e).bind (fun content =>
            ((splitOnSub (cs "url=") content).get? 1).bind (fun part =>
              if is_cdn_url (trim part) then some (trim part) else none))
        else none) := by
      rw [metaRefreshRaw] at hraw
      exact List.mem_of_mem_head? (by rw [hraw]; exact Option.mem_def.mpr rfl)
    obtain ⟨e, _, he⟩ := List.mem_filterMap.mp hmem
    split at he
    · rw [Option.bind_eq_some] at he
      obtain ⟨content, _, he⟩ := he
      rw [Option.bind_eq_some] at he
      obtain ⟨part, _, he⟩ := he
      split at he
      · cases he
        assumption
      · cases he
    · cases he
  · intro h u hu
    rw [extract_cdn_url_generic] at hu
    cases h1 : (genericScan true h).map decode_html_entities with
    | some r =>
      rw [h1] at hu
      simp only [Option.orElse] at hu
      cases hu
      rw [Option.map_eq_some'] at h1
      obtain ⟨raw, _, hr⟩ := h1
      exact ⟨raw, hr.symm⟩
    | none =>
      rw [h1] at hu
      simp only [Option.orElse] at hu
      rw [Option.map_eq_some'] at hu
      obtain ⟨raw, _, hr⟩ := hu
      exact ⟨raw, hr.symm⟩
  · intro h u hu
    rw [extract_from_javascript] at hu
    cases h1 : jsScan (cs "window.location.href") h with
    | some r =>
      rw [h1] at hu
      simp only [Option.orElse] at hu
      cases hu
      exact ⟨cs "window.location.href", by simp, h1⟩
    | none =>
      rw [h1] at hu
      simp only [Option.orElse] at hu
      cases h2 : jsScan (cs "window.location") h with
      | some r =>
        rw [h2] at hu
        simp only [Option.orElse] at hu
        cases hu
        exact ⟨cs "window.location", by simp, h2⟩
      | none =>
        rw [h2] at hu
        simp only [Option.orElse] at hu
        cases h3 : jsScan (cs "location.href") h with
        | some r =>
          rw [h3] at hu
          simp only [Option.orElse] at hu
          cases hu
          exact ⟨cs "location.href", by simp, h3⟩
        | none =>
          rw [h3] at hu
          simp only [Option.orElse] at hu
          exact ⟨cs "location", by simp, hu⟩

set_option maxRecDepth 8192 in
/-- C3 (witness): the decoding law of the anchor fallback applied to
`cAnchorDoc`. -/
theorem c3_witness :
    ∃ raw, firstCdnHrefD cAnchorDoc = some raw ∧ is_cdn_url raw = true ∧
      cs "https://prg-c8.premiumcdn.net/1/f.mp4?token=a&expires=1" =
        decode_html_entities raw :=
  c3_decoding_paths.1 cAnchorDoc _ (by rfl)

/-- C8: `parse_original_download_url` succeeds exactly on the first anchor
href satisfying the CDN predicate, returning it entity-decoded with
`is_default = false` and label `"<resolution>p"` when the inferred
resolution is positive, else `"original"`; on the example page whose href
encodes `filename=Movie+2160p+HEVC.mkv` it yields resolution 2160, label
`2160p`, format `mkv`; without any CDN href it fails with the not-found
error. -/
theorem c8_original_download :
    (∀ d s, parse_original_download_url d = .ok s →
      ∃ href, firstCdnHrefD d = some href ∧ is_cdn_url href = true ∧
        s.url = decode_html_entities href ∧ s.is_default = false ∧
        s.label = (if 0 < s.resolution then natStr s.resolution ++ cs "p"
          else cs "original")) ∧
    (∀ d, firstCdnHrefD d = none →
      parse_original_download_url d = .error (.notFound
        (cs "Could not find original download URL in redirect page"))) ∧
    parse_original_download_url cDlDoc = .ok
      { url := cs "https://pf-storage3.premiumcdn.net/165065360/abc?filename=Movie+2160p+HEVC.mkv&token=xyz&expires=123"
        label := cs "2160p"
        resolution := 2160
        is_default := false
        format := some (cs "mkv") } := by
  refine ⟨?_, ?_, ?_⟩
  · intro d s h
    rw [parse_original_download_url] at h
    cases hf : firstCdnHrefD d with
    | none =>
      rw [hf] at h
      cases h
    | some href =>
      rw [hf] at h
      injection h with h1
      subst h1
      exact ⟨href, rfl, List.find?_some hf, rfl, rfl, rfl⟩
  · intro d h
    rw [parse_original_download_url, h]
  · rfl

set_option maxRecDepth 8192 in
/-- C8 (witness): the general law applied to the example page `cDlDoc`,
and the not-found law applied to the empty document. -/
theorem c8_witness :
    (∃ href, firstCdnHrefD cDlDoc = some href ∧ is_cdn_url href = true ∧
      (mkOriginalSource (decode_html_entities (cs "https://pf-storage3.premiumcdn.net/165065360/abc?filename=Movie+2160p+HEVC.mkv&token=xyz&expires=123"))).url =
        decode_html_entities href ∧
      (mkOriginalSource (decode_html_entities (cs "https://pf-storage3.premiumcdn.net/165065360/abc?filename=Movie+2160p+HEVC.mkv&token=xyz&expires=123"))).is_default = false ∧
      (mkOriginalSource (decode_html_entities (cs "https://pf-storage3.premiumcdn.net/165065360/abc?filename=Movie+2160p+HEVC.mkv&token=xyz&expires=123"))).label =
        (if 0 < (mkOriginalSource (decode_html_entities (cs "https://pf-storage3.premiumcdn.net/165065360/abc?filename=Movie+2160p+HEVC.mkv&token=xyz&expires=123"))).resolution
          then natStr (mkOriginalSource (decode_html_entities (cs "https://pf-storage3.premiumcdn.net/165065360/abc?filename=Movie+2160p+HEVC.mkv&token=xyz&expires=123"))).resolution ++ cs "p"
          else cs "original")) ∧
    parse_original_download_url .nilD = .error (.notFound
      (cs "Could not find original download URL in redirect page")) :=
  ⟨c8_original_download.1 cDlDoc _ (by rfl),
    c8_original_download.2.1 .nilD (by rfl)⟩

lemma collectCards_eq_filterMap :
    ∀ es : List Elem, collectCards es = es.filterMap parse_video_card := by
  intro es
  induction es with
  | nil => rfl
  | cons e rest ih =>
    rw [collectCards, List.filterMap_cons]
    cases h : parse_video_card e with
    | none => rw [ih]
    | some v => rw [ih]

/-- C5: `parse_search_results` never fails: it returns exactly the
document-order anchors of the main region filtered through
`parse_video_card`; a page with zero valid cards yields the empty list,
an anchor without a non-empty `h3` heading is skipped
(`parse_video_card` returns none), and on the two-anchor example page the
navigation anchor is dropped while the sibling valid card is returned. -/
theorem c5_search_results :
    (∀ d, parse_search_results d =
      .ok ((selectMainAnchors false d).filterMap parse_video_card)) ∧
    (∀ d, (∀ e ∈ selectMainAnchors false d, parse_video_card e = none) →
      parse_search_results d = .ok []) ∧
    (∀ e : Elem,
      ((firstH3 e).map (fun h3 => trim (joinTexts h3.children))).getD [] = [] →
      parse_video_card e = none) ∧
    parse_search_results cSkipDoc = .ok [cSkipResult] := by
  refine ⟨?_, ?_, ?_, ?_⟩
  · intro d
    rw [parse_search_results, collectCards_eq_filterMap]
  · intro d h
    rw [parse_search_results, collectCards_eq_filterMap,
      List.filterMap_eq_nil_iff.mpr h]
  · intro e he
    rw [parse_video_card]
    cases h1 : attrOf (cs "href") e with
    | none => rfl
    | some href =>
      rw [Option.some_bind]
      cases h2 : extract_video_info href with
      | none => rfl
      | some info =>
        rw [Option.some_bind]
        cases h3 : firstH3 e with
        | none => rfl
        | some h3e =>
          rw [Option.some_bind]
          rw [h3] at he
          simp only [Option.map_some', Option.getD_some] at he
          rw [he]
          simp
  · rfl

/-- C5 (witness): the skip law applied to the heading-less anchor of
`cSkipDoc`, and the empty-page law applied to the empty document. -/
theorem c5_witness :
    parse_video_card
      { tag := cs "a", attrs := [(cs "href", cs "/some-page")],
        children := Dom.consText (cs "Not a video") .nilD } = none ∧
    parse_search_results .nilD = .ok [] :=
  ⟨c5_search_results.2.2.1 _ (by decide),
    c5_search_results.2.1 .nilD (by decide)⟩

end Prehrajto
